import Mathlib

/-!
A verification development for the `AI_Data_Ingestion` pipeline.

Python strings are modelled as `List Char`; Python dicts with string keys as
insertion-ordered association lists; fallible external calls (Gemini, Chroma)
as explicit environment records whose fields describe the outcome of each
external interaction.  All definitions are translated from the repository
sources (`src/ingestion/*.py`, `src/backend/services/*.py`); the source file
and function each definition embeds is named in its doc comment.
-/

namespace AIDI

/-- Python `str` modelled as a list of characters. -/
abbrev Str := List Char

/-- The character class matched by Python's regex `\s` on `str` (and stripped
by `str.strip()`): ASCII whitespace `\t \n \v \f \r`, the information
separators `\x1c`-`\x1f`, space, NEL, NBSP, and the Unicode space
characters. -/
def isPyWs (c : Char) : Bool :=
  let n := c.toNat
  (9 ≤ n && n ≤ 13) || (28 ≤ n && n ≤ 31) || n == 32 || n == 0x85 || n == 0xA0 ||
  n == 0x1680 || (0x2000 ≤ n && n ≤ 0x200A) || n == 0x2028 || n == 0x2029 ||
  n == 0x202F || n == 0x205F || n == 0x3000

/-- `cleaner.CONTROL_CHAR_RE = [\x00-\x08\x0B\x0C\x0E-\x1F]` (tab, newline and
carriage return are deliberately exempted by the source). -/
def isCtrl (c : Char) : Bool :=
  c.toNat ≤ 0x08 || c.toNat == 0x0B || c.toNat == 0x0C ||
  (0x0E ≤ c.toNat && c.toNat ≤ 0x1F)

/-- Python `str.lower()`, restricted to the ASCII range actually exercised by
the repository's keyword tables (Thai characters are caseless). -/
def pyLower (s : Str) : Str := s.map Char.toLower

/-- Does `needle` occur at the start of `hay`?  (Used to define the Python
`in` operator on strings.) -/
def leadsWith : Str → Str → Bool
  | [], _ => true
  | _ :: _, [] => false
  | a :: as, b :: bs => a == b && leadsWith as bs

/-- The Python substring test `needle in hay`. -/
def hasSub : Str → Str → Bool
  | needle, [] => needle.isEmpty
  | needle, b :: bs => leadsWith needle (b :: bs) || hasSub needle bs

/-- One pass of `re.sub(r"\s+", " ", s)`: every maximal run of whitespace
characters is replaced by a single space.  The boolean records whether the
previously consumed character was part of a whitespace run. -/
def collapseWsAux : Bool → Str → Str
  | _, [] => []
  | prevWs, c :: rest =>
    if isPyWs c then
      if prevWs then collapseWsAux true rest
      else ' ' :: collapseWsAux true rest
    else c :: collapseWsAux false rest

/-- `re.sub(r"\s+", " ", s)`. -/
def collapseWs (s : Str) : Str := collapseWsAux false s

/-- Python `str.strip()`: drop leading whitespace, then drop trailing
whitespace (implemented by reversing, dropping, and reversing back). -/
def pyStrip (s : Str) : Str :=
  ((s.dropWhile isPyWs).reverse.dropWhile isPyWs).reverse

/-- `cleaner._normalize_text`: remove control characters, collapse whitespace
runs to a single space, and strip.  (The source's early return on an empty
string produces the same value the pipeline does.) -/
def normalizeText (s : Str) : Str :=
  if s.isEmpty then [] else pyStrip (collapseWs (s.filter (fun c => !isCtrl c)))

/-- Truthiness of a Python string: `""` is falsy. -/
def truthyStr (s : Str) : Bool := !s.isEmpty

/-- A table cell is blank when `cell.strip()` is falsy (the test the cleaner
applies when pruning blank columns and rows). -/
def blankCell (s : Str) : Bool := (pyStrip s).isEmpty

/-! ## Python dict values (`extra` bags, validation contexts) -/

/-- A Python value as stored in the `extra` dictionaries of the schema
dataclasses: strings, integers, lists of strings, or nested dicts. -/
inductive PVal where
  | s (v : Str)
  | n (v : Int)
  | lst (v : List Str)
  | dict (v : List (Str × PVal))
deriving BEq

/-- A Python `dict` with string keys, as an insertion-ordered association
list. -/
abbrev PyDict := List (Str × PVal)

/-- `d.get(k)` / `d[k]`. -/
def dictGet (d : PyDict) (k : Str) : Option PVal :=
  (d.find? (fun kv => kv.1 == k)).map (·.2)

/-- `d[k] = v`: replace the value in place if the key exists (Python dicts
keep insertion order), otherwise append the new binding. -/
def dictSet (d : PyDict) (k : Str) (v : PVal) : PyDict :=
  if d.any (fun kv => kv.1 == k) then
    d.map (fun kv => if kv.1 == k then (k, v) else kv)
  else d ++ [(k, v)]

/-! ## Schema (`src/ingestion/schema.py`) -/

/-- `schema.DocumentMetadata`. -/
structure DocumentMetadata where
  doc_id : Str
  file_name : Str
  doc_type : Str
  page_count : Int
  ingested_at : Str
  source : Str := "uploaded".toList
deriving BEq

/-- `schema.TextBlock` (the `bbox` field is irrelevant to every claim and
omitted; nothing in the embedded functions reads it). -/
structure TextBlock where
  id : Str
  doc_id : Str
  page : Int
  content : Str
  sectionName : Option Str := none
  category : Option Str := none
  extra : PyDict := []
deriving BEq

/-- `schema.TableBlock`.  The dataclass declares `columns`; the cleaner and the
semantic enricher additionally read and write a `header` attribute that the
dataclass does not declare — on a freshly constructed block Python's
`getattr(tb, "header", [])` returns the default `[]`.  The optional `header`
field models that dynamic attribute: `none` means the attribute has never been
set, and `getattr` with default `[]` is `header.getD []`. -/
structure TableBlock where
  id : Str
  doc_id : Str
  page : Int
  name : Option Str := none
  sectionName : Option Str := none
  category : Option Str := none
  columns : List Str := []
  rows : List (List Str) := []
  extra : PyDict := []
  header : Option (List Str) := none
deriving BEq

/-- `schema.ImageBlock`. -/
structure ImageBlock where
  id : Str
  doc_id : Str
  page : Int
  file_path : Str
  caption : Option Str := none
  sectionName : Option Str := none
  category : Option Str := none
  extra : PyDict := []
deriving BEq

/-- `schema.IngestedDocument`. -/
structure IngestedDocument where
  metadata : DocumentMetadata
  texts : List TextBlock := []
  tables : List TableBlock := []
  images : List ImageBlock := []

/-! ## Cleaner (`src/ingestion/cleaner.py`) -/

/-- The `extra["cleaning"]` update performed by `clean_text_blocks` on a kept
block. -/
def textCleaningExtra (extra : PyDict) (original normalized : Str) : PyDict :=
  let meta := match dictGet extra "cleaning".toList with
    | some (PVal.dict m) => m
    | _ => []
  let meta := dictSet meta "original_length".toList (PVal.n original.length)
  let meta := dictSet meta "cleaned_length".toList (PVal.n normalized.length)
  let meta := dictSet meta "removed_chars".toList
    (PVal.n ((original.length : Int) - normalized.length))
  dictSet extra "cleaning".toList (PVal.dict meta)

/-- The body of the `clean_text_blocks` loop for one block: normalize the
content, drop the block if nothing remains, otherwise record the cleaning
metadata. -/
def cleanTextOne (b : TextBlock) : Option TextBlock :=
  let original := b.content
  let normalized := normalizeText original
  if normalized.isEmpty then none
  else some { b with
    content := normalized
    extra := textCleaningExtra b.extra original normalized }

/-- `cleaner.clean_text_blocks`. -/
def clean_text_blocks (blocks : List TextBlock) : List TextBlock :=
  blocks.filterMap cleanTextOne

/-- `max(len(r) for r in rows)` (only evaluated on non-empty `rows`). -/
def maxRowLen (rows : List (List Str)) : Nat :=
  rows.foldr (fun r m => max r.length m) 0

/-- `r + [""] * (col_count - len(r))`. -/
def padTo (n : Nat) (r : List Str) : List Str :=
  r ++ List.replicate (n - r.length) []

/-- The column-keeping test of `clean_table_blocks`: column `idx` survives
when the header cell or some row cell in that column is non-blank. -/
def colKept (header : List Str) (rows : List (List Str)) (idx : Nat) : Bool :=
  ((header.getD idx []) :: rows.map (fun r => r.getD idx [])).any
    (fun v => !blankCell v)

/-- The row-keeping test of `clean_table_blocks`: a row survives when some
cell is non-blank. -/
def rowNonBlank (r : List Str) : Bool := r.any (fun c => !blankCell c)

/-- The `extra["cleaning"]` update performed by `clean_table_blocks`. -/
def tableCleaningExtra (extra : PyDict)
    (origRows cleanRows origHdr cleanHdr : Nat) : PyDict :=
  let meta := match dictGet extra "cleaning".toList with
    | some (PVal.dict m) => m
    | _ => []
  let meta := dictSet meta "original_row_count".toList (PVal.n origRows)
  let meta := dictSet meta "cleaned_row_count".toList (PVal.n cleanRows)
  let meta := dictSet meta "original_header_len".toList (PVal.n origHdr)
  let meta := dictSet meta "cleaned_header_len".toList (PVal.n cleanHdr)
  dictSet extra "cleaning".toList (PVal.dict meta)

/-- The header/rows computation of the `clean_table_blocks` loop body: clean
every cell, and when both header and rows are present pad them to a common
column count and drop the columns that are blank throughout; finally drop
blank rows. -/
def cleanTableCore (header : List Str) (rows : List (List Str)) :
    List Str × List (List Str) :=
  let headerClean := header.map normalizeText
  let rowsClean := rows.map (fun r => r.map normalizeText)
  let hf_rf :=
    if !headerClean.isEmpty && !rowsClean.isEmpty then
      let colCount := max headerClean.length (maxRowLen rowsClean)
      let headerPadded := padTo colCount headerClean
      let rowsPadded := rowsClean.map (padTo colCount)
      let keep := (List.range colCount).filter (colKept headerPadded rowsPadded)
      (keep.map (fun i => headerPadded.getD i []),
       rowsPadded.map (fun r => keep.map (fun i => r.getD i [])))
    else (headerClean, rowsClean)
  (hf_rf.1, hf_rf.2.filter rowNonBlank)

/-- The body of the `clean_table_blocks` loop for one table: compute the
cleaned header and rows, store them (`tb.header = header_final` creates or
overwrites the dynamic attribute), and record the audit counts. -/
def cleanTableOne (tb : TableBlock) : TableBlock :=
  let header := tb.header.getD []
  let hr := cleanTableCore header tb.rows
  { tb with
    header := some hr.1
    rows := hr.2
    extra := tableCleaningExtra tb.extra tb.rows.length hr.2.length
      header.length hr.1.length }

/-- `cleaner.clean_table_blocks`. -/
def clean_table_blocks (tables : List TableBlock) : List TableBlock :=
  tables.map cleanTableOne

/-! ## Document classifier (`src/ingestion/document_classifier.py`) -/

/-- `document_classifier.CANDIDATE_TYPES`. -/
def CANDIDATE_TYPES : List Str :=
  ["bank_statement".toList, "invoice".toList, "receipt".toList,
   "purchase_order".toList, "delivery_note".toList, "tax_form".toList,
   "generic".toList]

/-- `document_classifier.MODEL_CANDIDATES`. -/
def MODEL_CANDIDATES : List Str := ["models/gemini-2.5-flash".toList]

/-- Unicode decimal digits as they occur in the repository's documents:
ASCII and Thai digits (Python's `\d` on `str` matches any decimal digit). -/
def isDigitCh (c : Char) : Bool :=
  ('0' ≤ c && c ≤ '9') || (0xE50 ≤ c.toNat && c.toNat ≤ 0xE59)

/-- Does `\.\d{2}` match at the head of the string? -/
def centsAt : Str → Bool
  | '.' :: x :: y :: _ => isDigitCh x && isDigitCh y
  | _ => false

/-- Does `(,\d{3})+\.\d{2}` match at the head of the string (one or more
thousands groups followed by the decimal part)? -/
def groupsThenCents : Str → Bool
  | ',' :: a :: b :: c :: rest =>
    isDigitCh a && isDigitCh b && isDigitCh c &&
      (centsAt rest || groupsThenCents rest)
  | _ => false

/-- Does `\d{1,3}(,\d{3})+\.\d{2}` match starting at the head of the string
(all backtracking choices of the leading digit count are explored)? -/
def amountAt : Str → Bool
  | d1 :: r1 =>
    isDigitCh d1 &&
      (groupsThenCents r1 ||
        (match r1 with
         | d2 :: r2 =>
           isDigitCh d2 &&
             (groupsThenCents r2 ||
               (match r2 with
                | d3 :: r3 => isDigitCh d3 && groupsThenCents r3
                | [] => false))
         | [] => false))
  | [] => false

/-- `re.search(r"\d{1,3}(,\d{3})+\.\d{2}", s)` viewed as a boolean: a match
starts at some position of `s`. -/
def searchAmount : Str → Bool
  | [] => false
  | c :: rest => amountAt (c :: rest) || searchAmount rest

/-- `document_classifier._collect_sample_text` inner loop: keep accumulating
non-empty block contents until the next one would push the total past
`max_chars` (a `break`, not a skip). -/
def collectSampleAux (maxChars : Nat) : List TextBlock → Nat → List Str
  | [], _ => []
  | t :: rest, total =>
    if t.content.isEmpty then collectSampleAux maxChars rest total
    else if total + t.content.length > maxChars then []
    else t.content :: collectSampleAux maxChars rest (total + t.content.length)

/-- `document_classifier._collect_sample_text`. -/
def collect_sample_text (texts : List TextBlock) (maxChars : Nat := 6000) : Str :=
  List.intercalate ['\n'] (collectSampleAux maxChars texts 0)

/-- `document_classifier.classify_document_rule_based`: filename substrings
first, then content keywords, then the currency-amount regex, then the GFMIS
keyword, defaulting to `"generic"`. -/
def classify_document_rule_based (doc : IngestedDocument) : Str :=
  let file_name := pyLower doc.metadata.file_name
  let sample := pyLower (collect_sample_text doc.texts)
  if hasSub "statement".toList file_name || hasSub "bank".toList file_name then
    "bank_statement".toList
  else if hasSub "invoice".toList file_name then "invoice".toList
  else if hasSub "receipt".toList file_name || hasSub "slip".toList file_name then
    "receipt".toList
  else if hasSub "po".toList file_name || hasSub "purchase".toList file_name then
    "purchase_order".toList
  else if hasSub "ใบแจ้งยอด".toList sample || hasSub "ยอดคงเหลือ".toList sample ||
      hasSub "account".toList sample then
    "bank_statement".toList
  else if hasSub "tax invoice".toList sample || hasSub "ใบกำกับภาษี".toList sample then
    "invoice".toList
  else if hasSub "received with thanks".toList sample || hasSub "ใบเสร็จ".toList sample then
    "receipt".toList
  else if searchAmount sample then "bank_statement".toList
  else if hasSub "gfmis".toList sample || hasSub "gfmis thai".toList sample then
    "bank_statement".toList
  else "generic".toList

/-- The outcomes of the external interactions performed by
`classify_document_with_gemini`:
* `api_key` — the value of `os.getenv("GOOGLE_API_KEY")` (`none` when unset);
* `available_models` — the names returned by `genai.list_models()`, or `none`
  when that call (or anything up to it) raised;
* `response` — `none` when `model.generate_content` raised, `some none` when
  the `resp.text` accessor raised (a blocked/empty candidate list), and
  `some (some t)` when the response text `t` was retrieved. -/
structure GeminiEnv where
  api_key : Option Str
  available_models : Option (List Str)
  response : Option (Option Str)

/-- The model-selection step of `classify_document_with_gemini`: an explicit
`model_name` is used as given; otherwise the first entry of
`MODEL_CANDIDATES` present in `genai.list_models()` is chosen, and `none`
signals that the list call raised or no candidate was available (both of
which the source answers with the rule-based fallback). -/
def geminiChooseModel (env : GeminiEnv) (model_name : Option Str) : Option Str :=
  match model_name with
  | some m => some m
  | none =>
    match env.available_models with
    | none => none
    | some avail => MODEL_CANDIDATES.find? (fun c => avail.any (· == c))

/-- `document_classifier.classify_document_with_gemini`.  The `try`/`except`
of the source catches every exception of the external calls and falls back to
the rule-based classifier, as do the explicit missing-key and no-model
returns; a successfully retrieved response text is matched exactly against
`CANDIDATE_TYPES`, then fuzzily, and otherwise yields `"generic"`. -/
def classify_document_with_gemini (env : GeminiEnv) (doc : IngestedDocument)
    (model_name : Option Str := none) : Str :=
  match env.api_key with
  | none => classify_document_rule_based doc
  | some key =>
    if key.isEmpty then classify_document_rule_based doc
    else
      match geminiChooseModel env model_name with
      | none => classify_document_rule_based doc
      | some _ =>
        match env.response with
        | none => classify_document_rule_based doc
        | some none => classify_document_rule_based doc
        | some (some txt) =>
          let answer := pyLower (pyStrip txt)
          if CANDIDATE_TYPES.any (· == answer) then answer
          else if hasSub "bank".toList answer && hasSub "statement".toList answer then
            "bank_statement".toList
          else if hasSub "invoice".toList answer then "invoice".toList
          else if hasSub "receipt".toList answer then "receipt".toList
          else if hasSub "purchase".toList answer then "purchase_order".toList
          else "generic".toList

/-! ## Semantic enricher (`src/ingestion/semantic_enricher.py`) -/

/-- `semantic_enricher.HEADER_NORMALIZATION_MAP`, in source (insertion)
order. -/
def HEADER_NORMALIZATION_MAP : List (Str × Str) :=
  [("date".toList, "date".toList),
   ("วันที่".toList, "date".toList),
   ("วันเดือนปี".toList, "date".toList),
   ("description".toList, "description".toList),
   ("details".toList, "description".toList),
   ("รายละเอียด".toList, "description".toList),
   ("รายการ".toList, "description".toList),
   ("debit".toList, "amount_out".toList),
   ("withdrawal".toList, "amount_out".toList),
   ("ถอน".toList, "amount_out".toList),
   ("จ่าย".toList, "amount_out".toList),
   ("credit".toList, "amount_in".toList),
   ("deposit".toList, "amount_in".toList),
   ("ฝาก".toList, "amount_in".toList),
   ("รับ".toList, "amount_in".toList),
   ("balance".toList, "balance".toList),
   ("ยอดคงเหลือ".toList, "balance".toList),
   ("คงเหลือ".toList, "balance".toList),
   ("amount".toList, "amount".toList),
   ("ยอดเงิน".toList, "amount".toList),
   ("จำนวนเงิน".toList, "amount".toList)]

/-- `semantic_enricher._normalize_header_name`: strip and lowercase, then
return the canonical name of the first synonym-table key occurring as a
substring, and otherwise the cleaned header itself. -/
def normalize_header_name (h : Str) : Str :=
  let hClean := pyLower (pyStrip h)
  if hClean.isEmpty then []
  else
    match HEADER_NORMALIZATION_MAP.find? (fun kv => hasSub kv.1 hClean) with
    | some kv => kv.2
    | none => hClean

/-- `semantic_enricher._guess_table_role`. -/
def guess_table_role (tb : TableBlock) : Str :=
  let headerLower := (tb.header.getD []).map pyLower
  if headerLower.any (fun h => hasSub "date".toList h) &&
      headerLower.any (fun h =>
        ["amount".toList, "ยอดเงิน".toList, "debit".toList, "credit".toList,
         "ยอดคงเหลือ".toList, "balance".toList].any (fun x => hasSub x h)) then
    "transaction_table".toList
  else if ["summary".toList, "สรุป".toList, "total".toList, "รวม".toList].any
      (fun k => hasSub k (List.intercalate [' '] headerLower)) then
    "summary_table".toList
  else "other_table".toList

/-- The `extra` update performed by `normalize_tables` on one table. -/
def normalizeTablesExtra (extra : PyDict) (header normalized : List Str)
    (role : Str) : PyDict :=
  let norm := match dictGet extra "header_normalization".toList with
    | some (PVal.dict m) => m
    | _ => []
  let norm := dictSet norm "original_header".toList (PVal.lst header)
  let norm := dictSet norm "normalized_header".toList (PVal.lst normalized)
  let extra := dictSet extra "header_normalization".toList (PVal.dict norm)
  dictSet extra "role".toList (PVal.s role)

/-- `semantic_enricher.normalize_tables` body for one table (the source
mutates each table in place and returns the list). -/
def normalizeTableOne (tb : TableBlock) : TableBlock :=
  let header := tb.header.getD []
  let normalizedHeader := header.map normalize_header_name
  let tb' := { tb with header := some normalizedHeader }
  let newExtra :=
    normalizeTablesExtra tb.extra header normalizedHeader (guess_table_role tb')
  { tb' with extra := newExtra }

/-- `semantic_enricher.normalize_tables`. -/
def normalize_tables (tables : List TableBlock) : List TableBlock :=
  tables.map normalizeTableOne

/-! ## Validator (`src/ingestion/validator.py`) -/

/-- `validator._issue` output. -/
structure Issue where
  level : Str
  code : Str
  message : Str
  context : PyDict := []
deriving BEq

/-- Decimal rendering of a number interpolated into an f-string. -/
def natStr (n : Nat) : Str := Nat.toDigits 10 n

/-- `validator.validate_document_structure`. -/
def validate_document_structure (doc : IngestedDocument) : List Issue :=
  (if doc.metadata.doc_id.isEmpty then
    [⟨"error".toList, "MISSING_DOC_ID".toList,
      "Document metadata.doc_id is empty.".toList, []⟩] else []) ++
  (if doc.metadata.file_name.isEmpty then
    [⟨"warning".toList, "MISSING_FILE_NAME".toList,
      "Document metadata.file_name is empty.".toList, []⟩] else []) ++
  (if doc.texts.isEmpty then
    [⟨"error".toList, "NO_TEXT_BLOCKS".toList,
      "Document has no TextBlock entries.".toList, []⟩] else [])

/-- The per-table issues of `validator.validate_tables` (the Python `getattr`
calls read the dynamic `header` attribute with default `[]`). -/
def validateTableOne (idx : Nat) (tb : TableBlock) : List Issue :=
  let header := tb.header.getD []
  let rows := tb.rows
  let ctx : PyDict := [("table_index".toList, PVal.n idx)]
  (if header.isEmpty && !rows.isEmpty then
    [⟨"warning".toList, "TABLE_NO_HEADER".toList,
      "Table index=".toList ++ natStr idx ++ " has rows but empty header.".toList,
      ctx⟩] else []) ++
  (if !header.isEmpty && rows.isEmpty then
    [⟨"warning".toList, "TABLE_NO_ROWS".toList,
      "Table index=".toList ++ natStr idx ++ " has header but no rows.".toList,
      ctx⟩] else []) ++
  (rows.enum.filterMap (fun rz =>
    if rz.2.length ≠ header.length then
      some ⟨"warning".toList, "ROW_LEN_MISMATCH".toList,
        "Table index=".toList ++ natStr idx ++ " row=".toList ++ natStr rz.1 ++
          " len(row)=".toList ++ natStr rz.2.length ++
          " != len(header)=".toList ++ natStr header.length,
        [("table_index".toList, PVal.n idx), ("row_index".toList, PVal.n rz.1)]⟩
    else none))

/-- `validator.validate_tables`. -/
def validate_tables (doc : IngestedDocument) : List Issue :=
  (doc.tables.enum.map (fun tz => validateTableOne tz.1 tz.2)).flatten

/-- `getattr(im, name, None)` for a string-valued attribute of the
`ImageBlock` dataclass: the schema declares `id`, `doc_id`, `page`,
`file_path`, `caption`, `section`, `category`, `bbox` and `extra`, and nothing
in the pipeline ever sets any other attribute on an image, so looking up any
other name yields the default `None`. -/
def ImageBlock.getattrStr (im : ImageBlock) (attrName : Str) : Option Str :=
  if attrName == "id".toList then some im.id
  else if attrName == "doc_id".toList then some im.doc_id
  else if attrName == "file_path".toList then some im.file_path
  else if attrName == "caption".toList then im.caption
  else if attrName == "section".toList then im.sectionName
  else if attrName == "category".toList then im.category
  else none

/-- Python truthiness of `getattr(...)`'s result: `None` and `""` are falsy. -/
def truthyOptStr : Option Str → Bool
  | none => false
  | some s => !s.isEmpty

/-- `validator.validate_images`: warn when neither `im.image_path` nor
`im.ref` is truthy.  (The schema's `ImageBlock` declares `file_path`, not
`image_path` or `ref`, so both `getattr` lookups always return `None`.) -/
def validate_images (doc : IngestedDocument) : List Issue :=
  doc.images.enum.filterMap (fun iz =>
    if !truthyOptStr (iz.2.getattrStr "image_path".toList) &&
        !truthyOptStr (iz.2.getattrStr "ref".toList) then
      some ⟨"warning".toList, "IMAGE_NO_PATH".toList,
        "Image index=".toList ++ natStr iz.1 ++ " has no image_path/ref.".toList,
        [("image_index".toList, PVal.n iz.1)]⟩
    else none)

/-- `validator.validate_all`. -/
def validate_all (doc : IngestedDocument) : List Issue :=
  validate_document_structure doc ++ validate_tables doc ++ validate_images doc

/-! ## Backend models (`src/backend/models.py`)

The pydantic items mirror the on-disk JSON blocks; `doc_type` is optional in
the JSON but filled in by the loader before chunking, so it is carried here as
a plain string (the chunker requires it). -/

/-- `models.TextItem` (bbox omitted; nothing the claims touch reads it). -/
structure TextItem where
  id : Str
  doc_id : Str
  page : Int
  sectionName : Option Str := none
  content : Str
  category : Option Str := none
  doc_type : Str
deriving BEq

/-- `models.TableItem`. -/
structure TableItem where
  id : Str
  doc_id : Str
  page : Int
  name : Option Str := none
  sectionName : Option Str := none
  category : Option Str := none
  columns : List Str
  rows : List (List Str)
  doc_type : Str
deriving BEq

/-- `models.ImageItem`. -/
structure ImageItem where
  id : Str
  doc_id : Str
  page : Int
  file_path : Str
  caption : Option Str := none
  sectionName : Option Str := none
  category : Option Str := none
  doc_type : Str
deriving BEq

/-- `models.Metadata` (the fields the chunking claims need). -/
structure BundleMetadata where
  doc_id : Str
  file_name : Str
  doc_type : Option Str := none
  page_count : Int
deriving BEq

/-- `models.DocumentBundle`. -/
structure DocumentBundle where
  metadata : BundleMetadata
  texts : List TextItem := []
  tables : List TableItem := []
  images : List ImageItem := []

/-! ## Chunking (`src/backend/services/chunking.py`) -/

/-- `chunking.Chunk.source` values. -/
inductive SourceKind where
  | text
  | table
  | image
deriving BEq, DecidableEq

/-- The literal name of a source kind as it appears in chunk ids. -/
def SourceKind.str : SourceKind → Str
  | .text => "text".toList
  | .table => "table".toList
  | .image => "image".toList

/-- `chunking.Chunk` (metadata kept as the source-specific map, with values
stringified as the vector store does later; the claims only read `id`,
`doc_id` and `source`). -/
structure Chunk where
  id : Str
  doc_id : Str
  doc_type : Str
  source : SourceKind
  page : Int
  content : Str
  metadata : PyDict := []

/-- The chunk-id separator `"::"` of the f-strings in `chunking.py`. -/
def sep2 : Str := "::".toList

/-- `f"{doc_id}::{kind}::{block_id}"`. -/
def chunkId (doc_id : Str) (kind : SourceKind) (blockId : Str) : Str :=
  doc_id ++ sep2 ++ kind.str ++ sep2 ++ blockId

/-- Python `str(x)` of an optional value (`None` renders as `"None"`),
as interpolated by `_table_to_text`. -/
def showOptStr : Option Str → Str
  | none => "None".toList
  | some s => s

/-- Decimal rendering of the `page` integer in `_table_to_text`. -/
def intStr (i : Int) : Str :=
  if i < 0 then '-' :: natStr i.natAbs else natStr i.natAbs

/-- `chunking._table_to_text`: name/page header, pipe-joined column list, and
at most the first 10 rows pipe-joined. -/
def table_to_text (t : TableItem) : Str :=
  let headerLine := "Table ".toList ++ showOptStr t.name ++ " (page ".toList ++
    intStr t.page ++ ")".toList
  let colLine := List.intercalate " | ".toList t.columns
  let body := List.intercalate ['\n']
    ((t.rows.take (min t.rows.length 10)).map (List.intercalate " | ".toList))
  headerLine ++ "\nColumns: ".toList ++ colLine ++ "\nRows:\n".toList ++ body

/-- `chunking.text_items_to_chunks`: one chunk per text item with truthy
content. -/
def text_items_to_chunks (bundle : DocumentBundle) : List Chunk :=
  bundle.texts.filterMap (fun item =>
    if item.content.isEmpty then none
    else some
      { id := chunkId item.doc_id .text item.id
        doc_id := item.doc_id
        doc_type := item.doc_type
        source := .text
        page := item.page
        content := item.content
        metadata := [("block_id".toList, PVal.s item.id)] })

/-- `chunking.table_items_to_chunks`: one chunk per table. -/
def table_items_to_chunks (bundle : DocumentBundle) : List Chunk :=
  bundle.tables.map (fun item =>
    { id := chunkId item.doc_id .table item.id
      doc_id := item.doc_id
      doc_type := item.doc_type
      source := .table
      page := item.page
      content := table_to_text item
      metadata := [("table_id".toList, PVal.s item.id),
                   ("columns".toList, PVal.lst item.columns)] })

/-- `chunking.image_items_to_chunks`: one chunk per image with a truthy
caption. -/
def image_items_to_chunks (bundle : DocumentBundle) : List Chunk :=
  bundle.images.filterMap (fun item =>
    match item.caption with
    | none => none
    | some cap =>
      if cap.isEmpty then none
      else some
        { id := chunkId item.doc_id .image item.id
          doc_id := item.doc_id
          doc_type := item.doc_type
          source := .image
          page := item.page
          content := cap
          metadata := [("image_id".toList, PVal.s item.id),
                       ("file_path".toList, PVal.s item.file_path)] })

/-- All chunks of one bundle, in the order `backend/scripts/ingest_doc.py`
produces them. -/
def bundle_chunks (bundle : DocumentBundle) : List Chunk :=
  text_items_to_chunks bundle ++ table_items_to_chunks bundle ++
    image_items_to_chunks bundle

/-- All chunks of a corpus of bundles. -/
def corpus_chunks (corpus : List DocumentBundle) : List Chunk :=
  (corpus.map bundle_chunks).flatten

/-! ## Vector store (`src/backend/services/vector_store.py`) -/

/-- A Chroma `where` filter as built by `search_similar`: either a single
`{field: {"$in": values}}` predicate or `{"$and": [...]}` over several. -/
inductive ChromaFilter where
  | inPred (field : Str) (values : List Str)
  | andF (conds : List ChromaFilter)
deriving BEq

/-- The retrieved document objects `similarity_search` returns (langchain
`Document`s: page content plus a scalar metadata map). -/
structure RetrievedDoc where
  page_content : Str
  metadata : List (Str × Str)
deriving BEq

/-- `meta.get(key)` on a retrieved document. -/
def metaGet (md : List (Str × Str)) (k : Str) : Option Str :=
  (md.find? (fun kv => kv.1 == k)).map (·.2)

/-- One `vectordb.similarity_search` invocation issued by `search_similar`:
the query, `k`, and the filter argument (`none` when the keyword was not
passed). -/
structure SearchCall where
  query : Str
  k : Nat
  filter : Option ChromaFilter
deriving BEq

/-- The backing Chroma store, as the function answering a similarity-search
call. -/
def ChromaStore := Str → Nat → Option ChromaFilter → List RetrievedDoc

/-- `vector_store.search_similar` (the filtered variant at lines 107-152):
build zero, one or two `$in` conditions from the truthy arguments, combine
two with `$and`, and issue exactly one `similarity_search` call — with the
filter keyword when a filter was built, without it otherwise.  Returns the
retrieved documents together with the list of issued calls. -/
def search_similar (store : ChromaStore) (query : Str) (k : Nat := 5)
    (doc_ids : Option (List Str) := none) (sources : Option (List Str) := none) :
    List RetrievedDoc × List SearchCall :=
  let conditions : List ChromaFilter :=
    (match doc_ids with
     | some ds => if ds.isEmpty then [] else [ChromaFilter.inPred "doc_id".toList ds]
     | none => []) ++
    (match sources with
     | some ss => if ss.isEmpty then [] else [ChromaFilter.inPred "source".toList ss]
     | none => [])
  let filterDict : Option ChromaFilter :=
    match conditions with
    | [] => none
    | [c] => some c
    | cs => some (ChromaFilter.andF cs)
  let call : SearchCall := { query := query, k := k, filter := filterDict }
  (store query k filterDict, [call])

/-! ## RAG orchestrator (`src/backend/services/rag.py`) -/

/-- `rag._rule_based_intent`'s `table_keywords`. -/
def table_keywords : List Str :=
  ["ตาราง".toList, "table".toList, "รายการ".toList, "รายชื่อ".toList,
   "สรุปข้อมูล".toList, "สรุปผล".toList, "สถิติ".toList, "สรุปคะแนน".toList,
   "แถวที่".toList, "คอลัมน์".toList, "column".toList, "row".toList,
   "ชีท".toList, "sheet".toList]

/-- `rag._rule_based_intent`'s `image_keywords`. -/
def image_keywords : List Str :=
  ["รูป".toList, "รูปภาพ".toList, "image".toList, "logo".toList,
   "โลโก้".toList, "กราฟ".toList, "graph".toList, "chart".toList,
   "แผนภาพ".toList, "diagram".toList, "แผนภูมิ".toList]

/-- `rag._rule_based_intent`: lowercase and strip the query; an empty query is
undetermined (`none`); otherwise match both keyword sets and return `"table"`,
`"both"` or `"text"`. -/
def rule_based_intent (query : Str) : Option Str :=
  let q := pyStrip (pyLower query)
  if q.isEmpty then none
  else
    let isTable := table_keywords.any (fun kw => hasSub kw q)
    let isImage := image_keywords.any (fun kw => hasSub kw q)
    if isTable && !isImage then some "table".toList
    else if isImage && !isTable then some "both".toList
    else if isTable && isImage then some "both".toList
    else some "text".toList

/-- The outcomes of the external model calls `answer_question` can make:
* `intentResp query` — the raw content the intent-classification model
  returns for the query (`none` when `llm.ainvoke` raised);
* `answerResp prompt` — the content the answer-generation model returns for
  the assembled system prompt. -/
structure RagEnv where
  store : ChromaStore
  intentResp : Str → Option Str
  answerResp : Str → Str

/-- `rag.classify_query_intent`: a raised call degrades to `"text"`;
otherwise the stripped lowercased response is substring-matched in the order
`both`, `table`, default `text`. -/
def classify_query_intent (env : RagEnv) (query : Str) : Str :=
  match env.intentResp query with
  | none => "text".toList
  | some raw =>
    let r := pyLower (pyStrip raw)
    if hasSub "both".toList r then "both".toList
    else if hasSub "table".toList r then "table".toList
    else "text".toList

/-- The intent-resolution state machine at the top of `rag.answer_question`:
explicit modes are authoritative; `auto` (and, defensively, any unrecognized
mode) runs the rule first and escalates only an undetermined query to the
model.  The boolean records whether the model-based classifier was invoked. -/
def resolveIntent (env : RagEnv) (query : Str) (mode : Str) : Str × Bool :=
  if mode == "auto".toList then
    match rule_based_intent query with
    | some i => (i, false)
    | none => (classify_query_intent env query, true)
  else if mode == "text".toList || mode == "table".toList ||
      mode == "both".toList then
    (mode, false)
  else
    match rule_based_intent query with
    | some i => (i, false)
    | none => (classify_query_intent env query, true)

/-- The `intent → source_filter` map of `rag.answer_question`. -/
def sourceFilterOf (intent : Str) : Option (List Str) :=
  if intent == "text".toList then some ["text".toList]
  else if intent == "table".toList then some ["table".toList]
  else if intent == "both".toList then some ["text".toList, "table".toList]
  else none

/-- One numbered context header of `rag._build_context_text`. -/
def contextHeader (i : Nat) (d : RetrievedDoc) : Str :=
  let doc_id := (metaGet d.metadata "doc_id".toList).getD "unknown".toList
  let page := (metaGet d.metadata "page".toList).getD "?".toList
  let source := (metaGet d.metadata "source".toList).getD "text".toList
  let doc_type := match metaGet d.metadata "doc_type".toList with
    | some t => if t.isEmpty then "unknown".toList else t
    | none => "unknown".toList
  "[".toList ++ natStr i ++ "] (doc_id=".toList ++ doc_id ++
    ", page=".toList ++ page ++ ", source=".toList ++ source ++
    ", doc_type=".toList ++ doc_type ++ ")".toList

/-- `rag._build_context_text`: headered parts joined by blank lines, truncated
to 12000 characters. -/
def build_context_text (docs : List RetrievedDoc) : Str :=
  (List.intercalate "\n\n".toList
    (docs.enum.map (fun iz =>
      contextHeader (iz.1 + 1) iz.2 ++ ['\n'] ++ iz.2.page_content))).take 12000

/-- The grounding system prompt assembled by `rag.answer_question` (the fixed
Thai instruction text, the resolved intent and mode, and the context). -/
def ragSystemPrompt (intent mode contextText : Str) : Str :=
  ("คุณเป็นผู้ช่วยอ่านและวิเคราะห์เอกสาร PDF หลายประเภท " ++
   "(เช่น รายงานบริษัท รายงานวิชาการ คู่มือ สัญญา เอกสารการเงิน ฯลฯ).\n" ++
   "ให้ตอบคำถามโดยอ้างอิงเฉพาะจาก CONTEXT ด้านล่างนี้เท่านั้น " ++
   "ห้ามเดาเกินข้อมูลในเอกสาร.\n" ++
   "- ถ้าใน CONTEXT มีรูปแบบ 'ถาม: ...' และ 'ตอบ: ...' " ++
   "ให้จับคู่คำถามของผู้ใช้กับส่วน 'ถาม:' ที่ใกล้เคียงที่สุด " ++
   "แล้วใช้ข้อความหลัง 'ตอบ:' เป็นคำตอบหลัก.\n" ++
   "- ให้ถือว่าข้อมูลเพียงพอ ถ้าพบประโยคหรือย่อหน้าที่ชี้คำตอบอย่างชัดเจน.\n" ++
   "- ให้ตอบว่า 'ไม่ทราบจากข้อมูลที่มีอยู่' เฉพาะกรณีที่ค้นหาแล้ว " ++
   "ไม่พบคำตอบจริง ๆ เท่านั้น.\n\n").toList ++
  "(query intent: ".toList ++ intent ++ ", mode: ".toList ++ mode ++
  ")\n\n".toList ++ "=== CONTEXT START ===\n".toList ++ contextText ++
  ("\n=== CONTEXT END ===\n\n" ++
   "ตอนนี้ให้ตอบคำถามของผู้ใช้ด้านล่างให้กระชับ ชัดเจน " ++
   "และอ้างอิงจากเนื้อหาใน CONTEXT เท่านั้น.").toList

/-- One citation entry of `answer_question`'s `sources` list. -/
structure SourceRef where
  doc_id : Option Str
  page : Option Str
  source : Option Str
  chunk_id : Option Str
deriving BEq

/-- The citation built from one retrieved document. -/
def mkSourceRef (d : RetrievedDoc) : SourceRef :=
  { doc_id := metaGet d.metadata "doc_id".toList
    page := metaGet d.metadata "page".toList
    source := metaGet d.metadata "source".toList
    chunk_id := metaGet d.metadata "chunk_id".toList }

/-- The dict `answer_question` returns. -/
structure RagAnswer where
  answer : Str
  sources : List SourceRef
  intent : Str
  mode : Str
deriving BEq

/-- The fixed no-results answer of `rag.answer_question`. -/
def NO_RESULT_ANSWER : Str :=
  "ไม่พบข้อมูลที่เกี่ยวข้องเพียงพอในฐานข้อมูลเอกสาร".toList

/-- `rag.answer_question`: resolve the intent, retrieve with the derived
source filter and the caller's `doc_ids`, short-circuit with the fixed answer
when nothing was retrieved, and otherwise generate an answer over the
assembled context.  Besides the result dict it returns whether the
intent-classification model and the answer-generation model were invoked. -/
def answer_question (env : RagEnv) (query : Str)
    (doc_ids : Option (List Str) := none) (top_k : Nat := 10)
    (mode : Str := "auto".toList) : RagAnswer × Bool × Bool :=
  let ib := resolveIntent env query mode
  let source_filter := sourceFilterOf ib.1
  let docs := (search_similar env.store query top_k doc_ids source_filter).1
  if docs.isEmpty then
    ({ answer := NO_RESULT_ANSWER, sources := [], intent := ib.1, mode := mode },
     ib.2, false)
  else
    let contextText := build_context_text docs
    let answerText := env.answerResp (ragSystemPrompt ib.1 mode contextText)
    ({ answer := answerText, sources := docs.map mkSourceRef, intent := ib.1,
       mode := mode }, ib.2, true)

/-! ## Structure of normalized text

`_normalize_text`'s output contains no control character, its only whitespace
character is the plain space, no two whitespace characters are adjacent, and
neither end is whitespace.  These five facts characterize the strings
`_normalize_text` fixes, which drives both the idempotence claim and the
blank-cell analysis of the table cleaner. -/

/-- No two adjacent whitespace characters. -/
def noWsPair (a b : Char) : Prop := ¬(isPyWs a = true ∧ isPyWs b = true)

/-- The shape of `_normalize_text`'s output. -/
structure NormalText (s : Str) : Prop where
  noCtrl : ∀ c ∈ s, isCtrl c = false
  wsSpace : ∀ c ∈ s, isPyWs c = true → c = ' '
  chain : s.Chain' noWsPair
  headNoWs : ∀ c ∈ s.head?, isPyWs c = false
  lastNoWs : ∀ c ∈ s.getLast?, isPyWs c = false

lemma collapseWsAux_true_head :
    ∀ l : Str, ∀ c ∈ (collapseWsAux true l).head?, isPyWs c = false := by
  intro l
  induction l with
  | nil => intro c hc; simp [collapseWsAux] at hc
  | cons d rest ih =>
    intro c hc
    by_cases hd : isPyWs d
    · rw [collapseWsAux, if_pos hd, if_pos rfl] at hc
      exact ih c hc
    · rw [collapseWsAux, if_neg hd] at hc
      simp only [List.head?_cons, Option.mem_def, Option.some.injEq] at hc
      subst hc
      simpa using hd

lemma mem_collapseWsAux :
    ∀ (l : Str) (b : Bool) (c : Char), c ∈ collapseWsAux b l → c ∈ l ∨ c = ' ' := by
  intro l
  induction l with
  | nil => intro b c hc; simp [collapseWsAux] at hc
  | cons d rest ih =>
    intro b c hc
    by_cases hd : isPyWs d
    · cases b with
      | true =>
        rw [collapseWsAux, if_pos hd, if_pos rfl] at hc
        rcases ih true c hc with h | h
        · exact Or.inl (List.mem_cons_of_mem _ h)
        · exact Or.inr h
      | false =>
        rw [collapseWsAux, if_pos hd, if_neg (by simp)] at hc
        rcases List.mem_cons.mp hc with h | h
        · exact Or.inr h
        · rcases ih true c h with h' | h'
          · exact Or.inl (List.mem_cons_of_mem _ h')
          · exact Or.inr h'
    · rw [collapseWsAux, if_neg hd] at hc
      rcases List.mem_cons.mp hc with h | h
      · exact Or.inl (h ▸ List.mem_cons_self _ _)
      · rcases ih false c h with h' | h'
        · exact Or.inl (List.mem_cons_of_mem _ h')
        · exact Or.inr h'

lemma collapseWsAux_wsSpace :
    ∀ (l : Str) (b : Bool), ∀ c ∈ collapseWsAux b l, isPyWs c = true → c = ' ' := by
  intro l
  induction l with
  | nil => intro b c hc; simp [collapseWsAux] at hc
  | cons d rest ih =>
    intro b c hc hws
    by_cases hd : isPyWs d
    · cases b with
      | true =>
        rw [collapseWsAux, if_pos hd, if_pos rfl] at hc
        exact ih true c hc hws
      | false =>
        rw [collapseWsAux, if_pos hd, if_neg (by simp)] at hc
        rcases List.mem_cons.mp hc with h | h
        · exact h
        · exact ih true c h hws
    · rw [collapseWsAux, if_neg hd] at hc
      rcases List.mem_cons.mp hc with h | h
      · subst h; exact absurd hws (by simpa using hd)
      · exact ih false c h hws

lemma collapseWsAux_chain :
    ∀ (l : Str) (b : Bool), (collapseWsAux b l).Chain' noWsPair := by
  intro l
  induction l with
  | nil => intro b; simp [collapseWsAux]
  | cons d rest ih =>
    intro b
    by_cases hd : isPyWs d
    · cases b with
      | true => rw [collapseWsAux, if_pos hd, if_pos rfl]; exact ih true
      | false =>
        rw [collapseWsAux, if_pos hd, if_neg (by simp)]
        refine List.chain'_cons'.mpr ⟨?_, ih true⟩
        intro y hy hpair
        exact absurd hpair.2 (by simpa using collapseWsAux_true_head rest y hy)
    · rw [collapseWsAux, if_neg hd]
      refine List.chain'_cons'.mpr ⟨?_, ih false⟩
      intro y _ hpair
      exact absurd hpair.1 (by simpa using hd)

lemma collapseWsAux_fixed :
    ∀ (l : Str) (b : Bool), (∀ c ∈ l, isPyWs c = true → c = ' ') →
      l.Chain' noWsPair → (b = true → ∀ c ∈ l.head?, isPyWs c = false) →
      collapseWsAux b l = l := by
  intro l
  induction l with
  | nil => intro b _ _ _; simp [collapseWsAux]
  | cons d rest ih =>
    intro b hflat hchain hhead
    by_cases hd : isPyWs d
    · cases b with
      | true =>
        exact absurd hd (by simpa using hhead rfl d (by simp))
      | false =>
        rw [collapseWsAux, if_pos hd, if_neg (by simp)]
        have hd' : d = ' ' := hflat d (by simp) hd
        have hrest : collapseWsAux true rest = rest := by
          refine ih true (fun c hc => hflat c (List.mem_cons_of_mem _ hc))
            (List.chain'_cons'.mp hchain).2 (fun _ c hc => ?_)
          have := (List.chain'_cons'.mp hchain).1 c hc
          by_contra hws
          exact this ⟨hd, by simpa using hws⟩
        rw [hrest, hd']
    · rw [collapseWsAux, if_neg hd]
      rw [ih false (fun c hc => hflat c (List.mem_cons_of_mem _ hc))
        (List.chain'_cons'.mp hchain).2 (by simp)]

lemma dropWhile_head_not (p : Char → Bool) :
    ∀ l : Str, ∀ c ∈ (l.dropWhile p).head?, p c = false := by
  intro l
  induction l with
  | nil => intro c hc; simp at hc
  | cons d rest ih =>
    intro c hc
    by_cases hd : p d
    · rw [List.dropWhile_cons_of_pos hd] at hc
      exact ih c hc
    · rw [List.dropWhile_cons_of_neg hd] at hc
      simp only [List.head?_cons, Option.mem_def, Option.some.injEq] at hc
      subst hc
      simpa using hd

lemma mem_dropWhile (p : Char → Bool) :
    ∀ l : Str, ∀ c ∈ l.dropWhile p, c ∈ l := by
  intro l
  induction l with
  | nil => intro c hc; simp at hc
  | cons d rest ih =>
    intro c hc
    by_cases hd : p d
    · rw [List.dropWhile_cons_of_pos hd] at hc
      exact List.mem_cons_of_mem _ (ih c hc)
    · rw [List.dropWhile_cons_of_neg hd] at hc
      exact hc

lemma chain'_dropWhile (p : Char → Bool) :
    ∀ l : Str, l.Chain' noWsPair → (l.dropWhile p).Chain' noWsPair := by
  intro l
  induction l with
  | nil => intro h; simp
  | cons d rest ih =>
    intro h
    by_cases hd : p d
    · rw [List.dropWhile_cons_of_pos hd]
      exact ih (List.chain'_cons'.mp h).2
    · rw [List.dropWhile_cons_of_neg hd]
      exact h

lemma getLast?_dropWhile (p : Char → Bool) :
    ∀ l : Str, l.dropWhile p = [] ∨ (l.dropWhile p).getLast? = l.getLast? := by
  intro l
  induction l with
  | nil => exact Or.inl rfl
  | cons d rest ih =>
    by_cases hd : p d
    · by_cases hrest : rest.dropWhile p = []
      · exact Or.inl (by rw [List.dropWhile_cons_of_pos hd]; exact hrest)
      · right
        rw [List.dropWhile_cons_of_pos hd]
        rcases ih with h | h
        · exact absurd h hrest
        · rw [h]
          cases rest with
          | nil => exact absurd rfl hrest
          | cons e rest' => exact (List.getLast?_cons_cons).symm
    · rw [List.dropWhile_cons_of_neg hd]
      exact Or.inr rfl

lemma dropWhile_of_head_not (p : Char → Bool) (l : Str)
    (h : ∀ c ∈ l.head?, p c = false) : l.dropWhile p = l := by
  cases l with
  | nil => rfl
  | cons d rest =>
    have : p d = false := h d (by simp)
    rw [List.dropWhile_cons_of_neg (by simp [this])]

lemma chain'_noWsPair_reverse {l : Str} (h : l.Chain' noWsPair) :
    l.reverse.Chain' noWsPair := by
  rw [List.chain'_reverse]
  exact h.imp (fun a b hab => fun hp => hab ⟨hp.2, hp.1⟩)

/-- `str.strip()` is the identity on a string with no whitespace at either
end. -/
lemma pyStrip_of_noEdgeWs (l : Str)
    (hh : ∀ c ∈ l.head?, isPyWs c = false)
    (hl : ∀ c ∈ l.getLast?, isPyWs c = false) : pyStrip l = l := by
  unfold pyStrip
  rw [dropWhile_of_head_not _ _ hh]
  rw [dropWhile_of_head_not _ _ (by simpa using hl)]
  exact List.reverse_reverse l

/-- `str.strip()` yields a string with no whitespace at either end, and
preserves the other normal-text facts. -/
lemma pyStrip_normal (l : Str)
    (hc : ∀ c ∈ l, isCtrl c = false)
    (hf : ∀ c ∈ l, isPyWs c = true → c = ' ')
    (hch : l.Chain' noWsPair) : NormalText (pyStrip l) := by
  unfold pyStrip
  set a := l.dropWhile isPyWs with ha
  set b := a.reverse.dropWhile isPyWs with hb
  have hmem : ∀ c ∈ b.reverse, c ∈ l := by
    intro c hcmem
    rw [List.mem_reverse] at hcmem
    have := mem_dropWhile isPyWs a.reverse c hcmem
    rw [List.mem_reverse] at this
    exact mem_dropWhile isPyWs l c this
  refine ⟨fun c hcm => hc c (hmem c hcm), fun c hcm => hf c (hmem c hcm), ?_, ?_, ?_⟩
  · exact chain'_noWsPair_reverse (chain'_dropWhile _ _
      (chain'_noWsPair_reverse (chain'_dropWhile _ _ hch)))
  · intro c hcm
    rw [List.head?_reverse] at hcm
    rcases getLast?_dropWhile isPyWs a.reverse with h | h
    · rw [hb, h] at hcm; simp at hcm
    · rw [hb, h, List.getLast?_reverse] at hcm
      exact dropWhile_head_not isPyWs l c hcm
  · intro c hcm
    rw [List.getLast?_reverse] at hcm
    exact dropWhile_head_not isPyWs a.reverse c hcm

/-- `_normalize_text` always produces normal text. -/
theorem normalizeText_normal (s : Str) : NormalText (normalizeText s) := by
  unfold normalizeText
  by_cases hs : s.isEmpty
  · rw [if_pos hs]
    exact ⟨by simp, by simp, by simp, by simp, by simp⟩
  · rw [if_neg hs]
    refine pyStrip_normal _ ?_ ?_ ?_
    · intro c hcm
      rcases mem_collapseWsAux _ _ _ hcm with h | h
      · have := (List.mem_filter.mp h).2
        simpa using this
      · subst h; rfl
    · exact collapseWsAux_wsSpace _ _
    · exact collapseWsAux_chain _ _

/-- `_normalize_text` fixes every normal text. -/
theorem NormalText.fixed {t : Str} (h : NormalText t) : normalizeText t = t := by
  unfold normalizeText
  by_cases ht : t.isEmpty
  · rw [if_pos ht]
    exact (List.isEmpty_iff.mp ht).symm
  · rw [if_neg ht]
    have hfilter : t.filter (fun c => !isCtrl c) = t := by
      rw [List.filter_eq_self]
      intro c hcm
      simp [h.noCtrl c hcm]
    rw [hfilter]
    have hcollapse : collapseWs t = t :=
      collapseWsAux_fixed t false h.wsSpace h.chain (by simp)
    rw [hcollapse]
    exact pyStrip_of_noEdgeWs t h.headNoWs h.lastNoWs

/-- Cleaning a text value twice is the same as cleaning it once. -/
theorem normalizeText_idem (s : Str) :
    normalizeText (normalizeText s) = normalizeText s :=
  (normalizeText_normal s).fixed

/-- A cleaned cell is already stripped. -/
theorem pyStrip_normalizeText (s : Str) :
    pyStrip (normalizeText s) = normalizeText s :=
  pyStrip_of_noEdgeWs _ (normalizeText_normal s).headNoWs
    (normalizeText_normal s).lastNoWs

/-- On a cleaned cell, the cleaner's blank test is plain emptiness. -/
theorem blankCell_normalizeText (s : Str) :
    blankCell (normalizeText s) = (normalizeText s).isEmpty := by
  unfold blankCell
  rw [pyStrip_normalizeText]

/-! ## Lowercasing and stripping -/

lemma toNat_ofNat_valid (n : Nat) (h : n.isValidChar) :
    (Char.ofNat n).toNat = n := by
  rw [Char.ofNat, dif_pos h]
  rfl

/-- ASCII lowercasing never changes whether a character is whitespace. -/
lemma isPyWs_toLower (c : Char) : isPyWs c.toLower = isPyWs c := by
  by_cases h : c.toNat ≥ 65 ∧ c.toNat ≤ 90
  · have hv : (c.toNat + 32).isValidChar := Or.inl (by omega)
    have hn : (Char.ofNat (c.toNat + 32)).toNat = c.toNat + 32 :=
      toNat_ofNat_valid _ hv
    have hlow : c.toLower = Char.ofNat (c.toNat + 32) := by
      simp only [Char.toLower]
      rw [if_pos h]
    rw [hlow]
    have h1 : isPyWs (Char.ofNat (c.toNat + 32)) = false := by
      simp only [isPyWs, hn]
      simp only [Bool.or_eq_false_iff, Bool.and_eq_false_iff,
        decide_eq_false_iff_not, beq_eq_false_iff_ne, ne_eq]
      omega
    have h2 : isPyWs c = false := by
      simp only [isPyWs]
      simp only [Bool.or_eq_false_iff, Bool.and_eq_false_iff,
        decide_eq_false_iff_not, beq_eq_false_iff_ne, ne_eq]
      omega
    rw [h1, h2]
  · have hlow : c.toLower = c := by
      simp only [Char.toLower]
      rw [if_neg h]
    rw [hlow]

/-- ASCII lowercasing is idempotent. -/
lemma toLower_toLower (c : Char) : c.toLower.toLower = c.toLower := by
  by_cases h : c.toNat ≥ 65 ∧ c.toNat ≤ 90
  · have hv : (c.toNat + 32).isValidChar := Or.inl (by omega)
    have hn : (Char.ofNat (c.toNat + 32)).toNat = c.toNat + 32 :=
      toNat_ofNat_valid _ hv
    have hlow : c.toLower = Char.ofNat (c.toNat + 32) := by
      simp only [Char.toLower]
      rw [if_pos h]
    rw [hlow]
    simp only [Char.toLower]
    rw [if_neg (by rw [hn]; omega)]
  · have hlow : c.toLower = c := by
      simp only [Char.toLower]
      rw [if_neg h]
    rw [hlow]
    exact hlow

lemma dropWhile_map_toLower (l : Str) :
    (l.map Char.toLower).dropWhile isPyWs = (l.dropWhile isPyWs).map Char.toLower := by
  induction l with
  | nil => rfl
  | cons c rest ih =>
    by_cases hc : isPyWs c
    · rw [List.map_cons, List.dropWhile_cons_of_pos (by rw [isPyWs_toLower]; exact hc),
        List.dropWhile_cons_of_pos hc, ih]
    · rw [List.map_cons, List.dropWhile_cons_of_neg (by rw [isPyWs_toLower]; exact hc),
        List.dropWhile_cons_of_neg hc, List.map_cons]

/-- Lowercasing commutes with stripping. -/
lemma pyStrip_pyLower (l : Str) : pyStrip (pyLower l) = pyLower (pyStrip l) := by
  unfold pyStrip pyLower
  rw [dropWhile_map_toLower, ← List.map_reverse, dropWhile_map_toLower,
    ← List.map_reverse]

/-- `str.strip()` output has no whitespace at either end. -/
lemma pyStrip_noEdgeWs (l : Str) :
    (∀ c ∈ (pyStrip l).head?, isPyWs c = false) ∧
    (∀ c ∈ (pyStrip l).getLast?, isPyWs c = false) := by
  unfold pyStrip
  constructor
  · intro c hcm
    rw [List.head?_reverse] at hcm
    rcases getLast?_dropWhile isPyWs (l.dropWhile isPyWs).reverse with h | h
    · rw [h] at hcm; simp at hcm
    · rw [h, List.getLast?_reverse] at hcm
      exact dropWhile_head_not isPyWs l c hcm
  · intro c hcm
    rw [List.getLast?_reverse] at hcm
    exact dropWhile_head_not isPyWs (l.dropWhile isPyWs).reverse c hcm

/-- `str.strip()` is idempotent. -/
lemma pyStrip_idem (l : Str) : pyStrip (pyStrip l) = pyStrip l :=
  pyStrip_of_noEdgeWs _ (pyStrip_noEdgeWs l).1 (pyStrip_noEdgeWs l).2

/-- Lowercasing is idempotent on strings. -/
lemma pyLower_idem (l : Str) : pyLower (pyLower l) = pyLower l := by
  unfold pyLower
  rw [List.map_map]
  exact List.map_congr_left (fun c _ => toLower_toLower c)

/-! ## Analysis of the table cleaner -/

lemma getD_of_lt {α : Type} (l : List α) (i : Nat) (d : α) (h : i < l.length) :
    l.getD i d = l.get ⟨i, h⟩ := by
  simp [List.getD_eq_getElem?_getD, List.getElem?_eq_getElem h]

lemma getD_of_ge {α : Type} (l : List α) (i : Nat) (d : α) (h : l.length ≤ i) :
    l.getD i d = d := by
  simp [List.getD_eq_getElem?_getD, List.getElem?_eq_none h]

lemma padTo_length {n : Nat} {l : List Str} (h : l.length ≤ n) :
    (padTo n l).length = n := by
  simp only [padTo, List.length_append, List.length_replicate]
  omega

/-- Padding with empty cells never changes the value read at any index
(out-of-range reads already default to the empty cell). -/
lemma padTo_getD : ∀ (l : List Str) (n i : Nat),
    (padTo n l).getD i [] = l.getD i [] := by
  intro l
  induction l with
  | nil =>
    intro n i
    by_cases h : i < n <;>
      simp [padTo, List.getD_eq_getElem?_getD, List.getElem?_replicate, h]
  | cons x xs ih =>
    intro n i
    cases i with
    | zero => simp [padTo]
    | succ j =>
      show ((x :: xs) ++ List.replicate (n - (xs.length + 1)) []).getD (j + 1) [] =
        (x :: xs).getD (j + 1) []
      rw [List.cons_append, List.getD_cons_succ, List.getD_cons_succ]
      have hres : xs ++ List.replicate (n - (xs.length + 1)) ([] : Str) =
          padTo (n - 1) xs := by
        unfold padTo
        congr 1
        congr 1
        omega
      rw [hres, ih]

lemma le_maxRowLen {rows : List (List Str)} {r : List Str} (h : r ∈ rows) :
    r.length ≤ maxRowLen rows := by
  induction rows with
  | nil => simp at h
  | cons x xs ih =>
    rcases List.mem_cons.mp h with h' | h'
    · subst h'
      simp only [maxRowLen, List.foldr_cons]
      omega
    · have := ih h'
      simp only [maxRowLen, List.foldr_cons] at *
      omega

lemma maxRowLen_of_uniform {rows : List (List Str)} {n : Nat} (hne : rows ≠ [])
    (h : ∀ r ∈ rows, r.length = n) : maxRowLen rows = n := by
  induction rows with
  | nil => exact absurd rfl hne
  | cons x xs ih =>
    cases xs with
    | nil =>
      simp only [maxRowLen, List.foldr_cons, List.foldr_nil]
      rw [h x (by simp)]
      omega
    | cons y ys =>
      have hx := h x (by simp)
      have hrest : maxRowLen (y :: ys) = n :=
        ih (by simp) (fun r hr => h r (List.mem_cons_of_mem _ hr))
      simp only [maxRowLen, List.foldr_cons] at hrest ⊢
      omega

lemma range_map_getD {α : Type} (l : List α) (d : α) :
    (List.range l.length).map (fun i => l.getD i d) = l := by
  induction l with
  | nil => rfl
  | cons x xs ih =>
    rw [List.length_cons, List.range_succ_eq_map, List.map_cons, List.map_map]
    simp only [List.getD_cons_zero, Function.comp_def, Nat.succ_eq_add_one,
      List.getD_cons_succ]
    rw [ih]

/-- An empty cell is blank. -/
lemma blankCell_nil : blankCell [] = true := rfl

/-- Cleaned-matter helper: reading a cleaned-cell list at any index yields a
cleaned cell. -/
lemma getD_fixed {l : List Str} (hl : ∀ c ∈ l, normalizeText c = c) (i : Nat) :
    normalizeText (l.getD i []) = l.getD i [] := by
  by_cases h : i < l.length
  · rw [getD_of_lt _ _ _ h]
    exact hl _ (List.get_mem l i h)
  · push_neg at h
    rw [getD_of_ge _ _ _ h]
    rfl

lemma padTo_cells_fixed {n : Nat} {l : List Str}
    (hl : ∀ c ∈ l, normalizeText c = c) :
    ∀ c ∈ padTo n l, normalizeText c = c := by
  intro c hc
  rcases List.mem_append.mp hc with h | h
  · exact hl c h
  · rw [List.eq_of_mem_replicate h]
    rfl

/-- The cell-cleaned rows of `clean_table_blocks`. -/
def cleanedRows (rows : List (List Str)) : List (List Str) :=
  rows.map (fun r => r.map normalizeText)

/-- The common column count `col_count` chosen by `clean_table_blocks`. -/
def ccOf (header : List Str) (rows : List (List Str)) : Nat :=
  max (header.map normalizeText).length (maxRowLen (cleanedRows rows))

/-- `header_padded`. -/
def hpOf (header : List Str) (rows : List (List Str)) : List Str :=
  padTo (ccOf header rows) (header.map normalizeText)

/-- `rows_padded`. -/
def rpOf (header : List Str) (rows : List (List Str)) : List (List Str) :=
  (cleanedRows rows).map (padTo (ccOf header rows))

/-- `keep_col_idx`. -/
def keepOf (header : List Str) (rows : List (List Str)) : List Nat :=
  (List.range (ccOf header rows)).filter (colKept (hpOf header rows) (rpOf header rows))

/-- When both header and rows are present `clean_table_blocks` takes the
padding/pruning branch. -/
lemma cleanTableCore_pos (header : List Str) (rows : List (List Str))
    (hh : header ≠ []) (hr : rows ≠ []) :
    cleanTableCore header rows =
      ((keepOf header rows).map (fun i => (hpOf header rows).getD i []),
       ((rpOf header rows).map
          (fun r => (keepOf header rows).map (fun i => r.getD i []))).filter
         rowNonBlank) := by
  obtain ⟨h0, ht, rfl⟩ := List.exists_cons_of_ne_nil hh
  obtain ⟨r0, rt, rfl⟩ := List.exists_cons_of_ne_nil hr
  simp only [cleanTableCore, List.map_cons, List.isEmpty_cons, Bool.not_false,
    Bool.and_self, if_pos]
  rfl

/-- With an empty header or no rows `clean_table_blocks` only cleans cells
and drops blank rows. -/
lemma cleanTableCore_neg (header : List Str) (rows : List (List Str))
    (h : header = [] ∨ rows = []) :
    cleanTableCore header rows =
      (header.map normalizeText, (cleanedRows rows).filter rowNonBlank) := by
  rcases h with h | h <;> subst h <;>
    simp [cleanTableCore, cleanedRows, List.isEmpty_iff]

/-- Every surviving row has a non-blank cell (in either branch). -/
lemma cleanTableCore_rows_nonblank (header : List Str) (rows : List (List Str)) :
    ∀ r ∈ (cleanTableCore header rows).2, rowNonBlank r = true := by
  intro r hrm
  unfold cleanTableCore at hrm
  exact (List.mem_filter.mp hrm).2

/-- Every cell of the cleaned header and rows is a `_normalize_text` fixed
point. -/
lemma cleanTableCore_cells_fixed (header : List Str) (rows : List (List Str)) :
    (∀ c ∈ (cleanTableCore header rows).1, normalizeText c = c) ∧
    (∀ r ∈ (cleanTableCore header rows).2, ∀ c ∈ r, normalizeText c = c) := by
  have hhc : ∀ c ∈ header.map normalizeText, normalizeText c = c := by
    intro c hc
    rcases List.mem_map.mp hc with ⟨a, _, rfl⟩
    exact normalizeText_idem a
  have hrc : ∀ r ∈ cleanedRows rows, ∀ c ∈ r, normalizeText c = c := by
    intro r hrm c hc
    rcases List.mem_map.mp hrm with ⟨a, _, rfl⟩
    rcases List.mem_map.mp hc with ⟨b, _, rfl⟩
    exact normalizeText_idem b
  by_cases hbr : header ≠ [] ∧ rows ≠ []
  · rw [cleanTableCore_pos header rows hbr.1 hbr.2]
    constructor
    · intro c hc
      rcases List.mem_map.mp hc with ⟨i, _, rfl⟩
      exact getD_fixed (padTo_cells_fixed hhc) i
    · intro r hrm c hc
      rcases List.mem_map.mp (List.mem_filter.mp hrm).1 with ⟨rp, hrp, rfl⟩
      rcases List.mem_map.mp hc with ⟨i, _, rfl⟩
      rcases List.mem_map.mp hrp with ⟨rc, hrc', rfl⟩
      exact getD_fixed (padTo_cells_fixed (hrc rc hrc')) i
  · rw [cleanTableCore_neg header rows (by tauto)]
    exact ⟨hhc, fun r hrm => hrc r (List.mem_filter.mp hrm).1⟩

lemma colKept_iff (hd : List Str) (rs : List (List Str)) (i : Nat) :
    colKept hd rs i = true ↔
      (blankCell (hd.getD i []) = false ∨
        ∃ r ∈ rs, blankCell (r.getD i []) = false) := by
  simp [colKept, List.any_cons, List.any_map, List.any_eq_true, Function.comp]

lemma getD_map_get {α β : Type} (f : α → β) (l : List α) (i : Nat) (d : β)
    (h : i < l.length) : (l.map f).getD i d = f (l.get ⟨i, h⟩) := by
  rw [getD_of_lt _ _ _ (by simpa using h)]
  simp

/-- In the padding branch, every surviving row has exactly as many cells as
the surviving header. -/
lemma cleanTableCore_uniform (header : List Str) (rows : List (List Str))
    (hh : header ≠ []) (hr : rows ≠ []) :
    ∀ r ∈ (cleanTableCore header rows).2,
      r.length = (cleanTableCore header rows).1.length := by
  rw [cleanTableCore_pos header rows hh hr]
  intro r hrm
  rcases List.mem_map.mp (List.mem_filter.mp hrm).1 with ⟨rp, _, rfl⟩
  simp

/-- In the padding branch, every surviving column has a non-blank value in
the header or in some surviving row. -/
lemma cleanTableCore_colKept (header : List Str) (rows : List (List Str))
    (hh : header ≠ []) (hr : rows ≠ []) :
    ∀ j, j < (cleanTableCore header rows).1.length →
      colKept (cleanTableCore header rows).1 (cleanTableCore header rows).2 j
        = true := by
  rw [cleanTableCore_pos header rows hh hr]
  intro j hj
  have hjk : j < (keepOf header rows).length := by simpa using hj
  set i := (keepOf header rows).get ⟨j, hjk⟩ with hidef
  have himem : i ∈ keepOf header rows := List.get_mem _ j hjk
  have hckept : colKept (hpOf header rows) (rpOf header rows) i = true :=
    (List.mem_filter.mp himem).2
  have hout1 : ((keepOf header rows).map
      (fun i2 => (hpOf header rows).getD i2 [])).getD j [] =
      (hpOf header rows).getD i [] := by
    rw [getD_map_get _ _ _ _ hjk]
  rcases (colKept_iff _ _ _).mp hckept with hcase | ⟨rp, hrp, hcell⟩
  · exact (colKept_iff _ _ _).mpr (Or.inl (by rw [hout1]; exact hcase))
  · refine (colKept_iff _ _ _).mpr (Or.inr ?_)
    refine ⟨(keepOf header rows).map (fun i2 => rp.getD i2 []), ?_, ?_⟩
    · refine List.mem_filter.mpr ⟨List.mem_map_of_mem _ hrp, ?_⟩
      refine List.any_eq_true.mpr
        ⟨((keepOf header rows).map (fun i2 => rp.getD i2 [])).getD j [], ?_, ?_⟩
      · have hlen : j < ((keepOf header rows).map
            (fun i2 => rp.getD i2 [])).length := by simpa using hjk
        rw [getD_of_lt _ _ _ hlen]
        exact List.get_mem _ j hlen
      · rw [getD_map_get _ _ _ _ hjk, ← hidef]
        simp only [Bool.not_eq_true']
        exact hcell
    · rw [getD_map_get _ _ _ _ hjk]
      exact hcell

/-- Selecting the kept columns of a padded cleaned row preserves whether the
row has a non-blank cell. -/
lemma sel_row_nonblank (header : List Str) (rows : List (List Str))
    (rc : List Str) (hmem : rc ∈ cleanedRows rows) :
    rowNonBlank ((keepOf header rows).map
      (fun i => (padTo (ccOf header rows) rc).getD i [])) = rowNonBlank rc := by
  by_cases hnb : rowNonBlank rc = true
  · rw [hnb]
    rcases List.any_eq_true.mp hnb with ⟨c, hcm, hc⟩
    rcases List.mem_iff_get.mp hcm with ⟨⟨i, hil⟩, rfl⟩
    have hicc : i < ccOf header rows := by
      have h1 : rc.length ≤ maxRowLen (cleanedRows rows) := le_maxRowLen hmem
      have h2 : maxRowLen (cleanedRows rows) ≤ ccOf header rows :=
        Nat.le_max_right _ _
      omega
    have hcd : rc.getD i [] = rc.get ⟨i, hil⟩ := getD_of_lt _ _ _ hil
    have hkept : colKept (hpOf header rows) (rpOf header rows) i = true := by
      refine (colKept_iff _ _ _).mpr (Or.inr ?_)
      refine ⟨padTo (ccOf header rows) rc, List.mem_map_of_mem _ hmem, ?_⟩
      rw [padTo_getD, hcd]
      simpa using hc
    have himem : i ∈ keepOf header rows :=
      List.mem_filter.mpr ⟨List.mem_range.mpr hicc, hkept⟩
    refine List.any_eq_true.mpr ⟨(padTo (ccOf header rows) rc).getD i [], ?_, ?_⟩
    · exact List.mem_map_of_mem _ himem
    · rw [padTo_getD, hcd]
      exact hc
  · rw [Bool.not_eq_true] at hnb
    rw [hnb]
    rw [Bool.eq_false_iff]
    intro hany
    rcases List.any_eq_true.mp hany with ⟨c, hcm, hc⟩
    rcases List.mem_map.mp hcm with ⟨i, _, rfl⟩
    rw [padTo_getD] at hc
    by_cases hil : i < rc.length
    · have : rowNonBlank rc = true := by
        refine List.any_eq_true.mpr ⟨rc.getD i [], ?_, hc⟩
        rw [getD_of_lt _ _ _ hil]
        exact List.get_mem _ i hil
      rw [this] at hnb
      cases hnb
    · push_neg at hil
      rw [getD_of_ge _ _ _ hil] at hc
      simp [blankCell_nil] at hc

/-- In the padding branch, exactly the rows whose cleaned form has a
non-blank cell survive. -/
lemma cleanTableCore_count (header : List Str) (rows : List (List Str))
    (hh : header ≠ []) (hr : rows ≠ []) :
    (cleanTableCore header rows).2.length =
      rows.countP (fun r => rowNonBlank (r.map normalizeText)) := by
  rw [cleanTableCore_pos header rows hh hr]
  rw [← List.countP_eq_length_filter, List.countP_map]
  unfold rpOf
  rw [List.countP_map]
  unfold cleanedRows
  rw [List.countP_map]
  apply List.countP_congr
  intro r hrm
  have hmem : r.map normalizeText ∈ cleanedRows rows :=
    List.mem_map_of_mem _ hrm
  have := sel_row_nonblank header rows (r.map normalizeText) hmem
  simp only [Function.comp]
  constructor
  · intro h
    rw [← this]
    exact h
  · intro h
    rw [← this] at h
    exact h

lemma padTo_eq_self {n : Nat} {l : List Str} (h : l.length = n) :
    padTo n l = l := by
  unfold padTo
  rw [h, Nat.sub_self, List.replicate_zero, List.append_nil]

/-- Cleaning a table's header and rows twice is the same as cleaning them
once. -/
theorem cleanTableCore_idem (header : List Str) (rows : List (List Str)) :
    cleanTableCore (cleanTableCore header rows).1 (cleanTableCore header rows).2 =
      cleanTableCore header rows := by
  have hfix1 := (cleanTableCore_cells_fixed header rows).1
  have hfix2 := (cleanTableCore_cells_fixed header rows).2
  have hnb := cleanTableCore_rows_nonblank header rows
  set o1 := (cleanTableCore header rows).1 with ho1
  set o2 := (cleanTableCore header rows).2 with ho2
  have hmap1 : o1.map normalizeText = o1 :=
    (List.map_congr_left (fun c hc => hfix1 c hc)).trans (List.map_id o1)
  have hmap2 : o2.map (fun r => r.map normalizeText) = o2 := by
    refine (List.map_congr_left ?_).trans (List.map_id o2)
    intro r hr
    exact (List.map_congr_left (fun c hc => hfix2 r hr c hc)).trans (List.map_id r)
  have hcr : cleanedRows o2 = o2 := hmap2
  by_cases hcase : o1 ≠ [] ∧ o2 ≠ []
  · have hhr : header ≠ [] ∧ rows ≠ [] := by
      constructor
      · intro hcon
        have h := cleanTableCore_neg header rows (Or.inl hcon)
        have : o1 = [] := by rw [ho1, h, hcon]; rfl
        exact hcase.1 this
      · intro hcon
        have h := cleanTableCore_neg header rows (Or.inr hcon)
        have : o2 = [] := by rw [ho2, h, hcon]; rfl
        exact hcase.2 this
    have huni := cleanTableCore_uniform header rows hhr.1 hhr.2
    have hck := cleanTableCore_colKept header rows hhr.1 hhr.2
    rw [cleanTableCore_pos o1 o2 hcase.1 hcase.2]
    have hcc : ccOf o1 o2 = o1.length := by
      unfold ccOf
      rw [hmap1, hcr, maxRowLen_of_uniform hcase.2 huni, Nat.max_self]
    have hhp : hpOf o1 o2 = o1 := by
      unfold hpOf
      rw [hmap1, hcc]
      exact padTo_eq_self rfl
    have hrpl : rpOf o1 o2 = o2 := by
      unfold rpOf
      rw [hcr, hcc]
      refine (List.map_congr_left ?_).trans (List.map_id o2)
      intro r hr
      exact padTo_eq_self (huni r hr)
    have hkeep : keepOf o1 o2 = List.range o1.length := by
      unfold keepOf
      rw [hcc, hhp, hrpl]
      exact List.filter_eq_self.mpr (fun j hj => hck j (List.mem_range.mp hj))
    have hH : (keepOf o1 o2).map (fun i => (hpOf o1 o2).getD i []) = o1 := by
      rw [hkeep, hhp]
      exact range_map_getD o1 []
    have hR : ((rpOf o1 o2).map
        (fun r => (keepOf o1 o2).map (fun i => r.getD i []))).filter rowNonBlank
        = o2 := by
      rw [hrpl, hkeep]
      have hsel : o2.map
          (fun r => (List.range o1.length).map (fun i => r.getD i [])) = o2 := by
        refine (List.map_congr_left ?_).trans (List.map_id o2)
        intro r hr
        rw [← huni r hr]
        exact range_map_getD r []
      rw [hsel]
      exact List.filter_eq_self.mpr (fun r hr => hnb r hr)
    rw [hH, hR]
  · have hor : o1 = [] ∨ o2 = [] := by
      rcases not_and_or.mp hcase with h | h
      · exact Or.inl (not_not.mp h)
      · exact Or.inr (not_not.mp h)
    rw [cleanTableCore_neg o1 o2 hor, hmap1, hcr,
      List.filter_eq_self.mpr (fun r hr => hnb r hr)]

/-! ## Claim theorems -/

/-- Python truthiness of the optional list arguments of `search_similar`:
`None` and `[]` are falsy (`if doc_ids:` and `if sources:`). -/
def truthyOptList : Option (List Str) → Bool
  | none => false
  | some l => !l.isEmpty

/-- C3: `search_similar` always issues exactly one `similarity_search` call;
with no truthy constraint the call carries no filter, with exactly one truthy
constraint it carries that single `$in` predicate directly, and with both it
carries one `$and`-combined filter over the `doc_id` and `source`
predicates, in that order. -/
theorem claim_C3_filter_composition (store : ChromaStore) (query : Str) (k : Nat) :
    (∀ doc_ids sources,
      (search_similar store query k doc_ids sources).2.length = 1) ∧
    (∀ doc_ids sources,
      truthyOptList doc_ids = false → truthyOptList sources = false →
      (search_similar store query k doc_ids sources).2 =
        [{ query := query, k := k, filter := none }]) ∧
    (∀ (ds : List Str) sources, ds ≠ [] → truthyOptList sources = false →
      (search_similar store query k (some ds) sources).2 =
        [{ query := query, k := k,
           filter := some (ChromaFilter.inPred "doc_id".toList ds) }]) ∧
    (∀ doc_ids (ss : List Str), truthyOptList doc_ids = false → ss ≠ [] →
      (search_similar store query k doc_ids (some ss)).2 =
        [{ query := query, k := k,
           filter := some (ChromaFilter.inPred "source".toList ss) }]) ∧
    (∀ (ds ss : List Str), ds ≠ [] → ss ≠ [] →
      (search_similar store query k (some ds) (some ss)).2 =
        [{ query := query, k := k,
           filter := some (ChromaFilter.andF
             [ChromaFilter.inPred "doc_id".toList ds,
              ChromaFilter.inPred "source".toList ss]) }]) := by
  refine ⟨fun _ _ => rfl, ?_, ?_, ?_, ?_⟩
  · intro doc_ids sources h1 h2
    cases doc_ids <;> cases sources <;>
      simp_all [search_similar, truthyOptList, List.isEmpty_iff]
  · intro ds sources hd h2
    cases sources <;>
      simp_all [search_similar, truthyOptList, List.isEmpty_iff]
  · intro doc_ids ss h1 hs
    cases doc_ids <;>
      simp_all [search_similar, truthyOptList, List.isEmpty_iff]
  · intro ds ss hd hs
    simp_all [search_similar, List.isEmpty_iff]

/-- C3 witness: the four filter shapes at concrete inputs. -/
theorem claim_C3_filter_composition_witness :
    ((search_similar (fun _ _ _ => []) "q".toList 5 none none).2 =
      [{ query := "q".toList, k := 5, filter := none }]) ∧
    ((search_similar (fun _ _ _ => []) "q".toList 5 (some ["doc_001".toList])
        none).2 =
      [{ query := "q".toList, k := 5,
         filter := some (ChromaFilter.inPred "doc_id".toList
           ["doc_001".toList]) }]) ∧
    ((search_similar (fun _ _ _ => []) "q".toList 5 none
        (some ["table".toList])).2 =
      [{ query := "q".toList, k := 5,
         filter := some (ChromaFilter.inPred "source".toList
           ["table".toList]) }]) ∧
    ((search_similar (fun _ _ _ => []) "q".toList 5 (some ["doc_001".toList])
        (some ["table".toList])).2 =
      [{ query := "q".toList, k := 5,
         filter := some (ChromaFilter.andF
           [ChromaFilter.inPred "doc_id".toList ["doc_001".toList],
            ChromaFilter.inPred "source".toList ["table".toList]]) }]) := by
  have h := claim_C3_filter_composition (fun _ _ _ => []) "q".toList 5
  exact ⟨h.2.1 none none (by decide) (by decide),
    h.2.2.1 ["doc_001".toList] none (by decide) (by decide),
    h.2.2.2.1 none ["table".toList] (by decide) (by decide),
    h.2.2.2.2 ["doc_001".toList] ["table".toList] (by decide) (by decide)⟩

/-- C2: when the similarity search under the resolved source filter retrieves
nothing, `answer_question` returns the fixed insufficient-information answer,
no citations, the resolved intent and the given mode, and does not invoke the
answer-generation model. -/
theorem claim_C2_no_results (env : RagEnv) (query : Str)
    (doc_ids : Option (List Str)) (top_k : Nat) (mode : Str)
    (h : (search_similar env.store query top_k doc_ids
        (sourceFilterOf (resolveIntent env query mode).1)).1 = []) :
    answer_question env query doc_ids top_k mode =
      ({ answer := NO_RESULT_ANSWER, sources := [],
         intent := (resolveIntent env query mode).1, mode := mode },
       (resolveIntent env query mode).2, false) := by
  simp only [answer_question]
  rw [h]
  simp

/-- A RAG environment whose retrieval step finds nothing and whose model
calls are inert (used to instantiate claims on concrete inputs). -/
def emptyStoreEnv : RagEnv :=
  { store := fun _ _ _ => []
    intentResp := fun _ => none
    answerResp := fun _ => [] }

/-- C2 witness: the no-results short-circuit on a concrete query. -/
theorem claim_C2_no_results_witness :
    ((search_similar emptyStoreEnv.store "สวัสดี".toList 10 none
        (sourceFilterOf
          (resolveIntent emptyStoreEnv "สวัสดี".toList "auto".toList).1)).1
      = []) ∧
    answer_question emptyStoreEnv "สวัสดี".toList none 10 "auto".toList =
      ({ answer := NO_RESULT_ANSWER, sources := [],
         intent := (resolveIntent emptyStoreEnv "สวัสดี".toList
           "auto".toList).1,
         mode := "auto".toList },
       (resolveIntent emptyStoreEnv "สวัสดี".toList "auto".toList).2,
       false) :=
  ⟨rfl, claim_C2_no_results emptyStoreEnv "สวัสดี".toList none 10
    "auto".toList rfl⟩

lemma answer_question_resolves (env : RagEnv) (query : Str)
    (doc_ids : Option (List Str)) (top_k : Nat) (mode : Str) :
    (answer_question env query doc_ids top_k mode).1.intent =
      (resolveIntent env query mode).1 ∧
    (answer_question env query doc_ids top_k mode).2.1 =
      (resolveIntent env query mode).2 := by
  simp only [answer_question]
  split <;> exact ⟨rfl, rfl⟩

/-- C8: under `mode=auto`, a query hitting only the table keywords resolves
to intent `table`, only the image keywords to `both`, both keyword sets to
`both`, and a non-empty query hitting neither to `text`, in every case
without invoking the model-based intent classifier; only an
empty-after-strip query escalates to the model-based classifier. -/
theorem claim_C8_auto_intent (env : RagEnv) (query : Str)
    (doc_ids : Option (List Str)) (top_k : Nat) :
    (table_keywords.any (fun kw => hasSub kw (pyStrip (pyLower query))) = true →
     image_keywords.any (fun kw => hasSub kw (pyStrip (pyLower query))) = false →
     (answer_question env query doc_ids top_k "auto".toList).1.intent =
         "table".toList ∧
       (answer_question env query doc_ids top_k "auto".toList).2.1 = false) ∧
    (image_keywords.any (fun kw => hasSub kw (pyStrip (pyLower query))) = true →
     table_keywords.any (fun kw => hasSub kw (pyStrip (pyLower query))) = false →
     (answer_question env query doc_ids top_k "auto".toList).1.intent =
         "both".toList ∧
       (answer_question env query doc_ids top_k "auto".toList).2.1 = false) ∧
    (table_keywords.any (fun kw => hasSub kw (pyStrip (pyLower query))) = true →
     image_keywords.any (fun kw => hasSub kw (pyStrip (pyLower query))) = true →
     (answer_question env query doc_ids top_k "auto".toList).1.intent =
         "both".toList ∧
       (answer_question env query doc_ids top_k "auto".toList).2.1 = false) ∧
    (pyStrip (pyLower query) ≠ [] →
     table_keywords.any (fun kw => hasSub kw (pyStrip (pyLower query))) = false →
     image_keywords.any (fun kw => hasSub kw (pyStrip (pyLower query))) = false →
     (answer_question env query doc_ids top_k "auto".toList).1.intent =
         "text".toList ∧
       (answer_question env query doc_ids top_k "auto".toList).2.1 = false) ∧
    (pyStrip (pyLower query) = [] →
     (answer_question env query doc_ids top_k "auto".toList).1.intent =
         classify_query_intent env query ∧
       (answer_question env query doc_ids top_k "auto".toList).2.1 = true) := by
  have hr := answer_question_resolves env query doc_ids top_k "auto".toList
  rw [hr.1, hr.2]
  simp only [resolveIntent, rule_based_intent]
  refine ⟨?_, ?_, ?_, ?_, ?_⟩
  · intro ht hi
    simp [ht, hi, List.isEmpty_iff,
      show pyStrip (pyLower query) ≠ [] from by
        intro hq
        rw [hq] at ht
        simp [table_keywords, hasSub] at ht]
  · intro hi ht
    simp [ht, hi, List.isEmpty_iff,
      show pyStrip (pyLower query) ≠ [] from by
        intro hq
        rw [hq] at hi
        simp [image_keywords, hasSub] at hi]
  · intro ht hi
    simp [ht, hi, List.isEmpty_iff,
      show pyStrip (pyLower query) ≠ [] from by
        intro hq
        rw [hq] at ht
        simp [table_keywords, hasSub] at ht]
  · intro hq ht hi
    simp [ht, hi, hq, List.isEmpty_iff]
  · intro hq
    simp [hq, List.isEmpty_iff]

/-- C8 witness: the five intent-resolution cases at concrete queries,
including the spec's example query (a table keyword, no image keyword). -/
theorem claim_C8_auto_intent_witness :
    ((answer_question emptyStoreEnv "ขอดูตารางรายการเดินบัญชี".toList none 10
        "auto".toList).1.intent = "table".toList ∧
      (answer_question emptyStoreEnv "ขอดูตารางรายการเดินบัญชี".toList none 10
        "auto".toList).2.1 = false) ∧
    ((answer_question emptyStoreEnv "มีรูปภาพไหม".toList none 10
        "auto".toList).1.intent = "both".toList) ∧
    ((answer_question emptyStoreEnv "ตาราง กราฟ".toList none 10
        "auto".toList).1.intent = "both".toList) ∧
    ((answer_question emptyStoreEnv "สวัสดี".toList none 10
        "auto".toList).1.intent = "text".toList) ∧
    ((answer_question emptyStoreEnv "   ".toList none 10
        "auto".toList).2.1 = true) := by
  refine ⟨?_, ?_, ?_, ?_, ?_⟩
  · exact (claim_C8_auto_intent emptyStoreEnv _ none 10).1 (by decide) (by decide)
  · exact ((claim_C8_auto_intent emptyStoreEnv _ none 10).2.1 (by decide)
      (by decide)).1
  · exact ((claim_C8_auto_intent emptyStoreEnv _ none 10).2.2.1 (by decide)
      (by decide)).1
  · exact ((claim_C8_auto_intent emptyStoreEnv _ none 10).2.2.2.1 (by decide)
      (by decide) (by decide)).1
  · exact ((claim_C8_auto_intent emptyStoreEnv _ none 10).2.2.2.2
      (by decide)).2

/-- C10: cleaning never reads or writes the schema's `columns` field — it
operates on the dynamic `header` attribute, which `getattr` defaults to the
empty list on blocks fresh from `extract_tables` — so a block whose `header`
attribute was never set is cleaned exactly like one whose header is the
empty list, and `columns` passes through unchanged for every block. -/
theorem claim_C10_columns_frame :
    (∀ tbs : List TableBlock,
      (clean_table_blocks tbs).map TableBlock.columns =
        tbs.map TableBlock.columns) ∧
    (∀ tb : TableBlock, tb.header = none →
      cleanTableOne tb = cleanTableOne { tb with header := some [] }) := by
  constructor
  · intro tbs
    unfold clean_table_blocks
    rw [List.map_map]
    exact List.map_congr_left (fun tb _ => rfl)
  · intro tb h
    simp [cleanTableOne, h]

/-- A table block as `extract_tables` produces it: `columns` populated, the
dynamic `header` attribute never set. -/
def freshBlock : TableBlock :=
  { id := "tbl_0001".toList
    doc_id := "doc_001".toList
    page := 1
    columns := ["Date".toList, "Debit".toList]
    rows := [["x".toList, "y".toList]] }

/-- C10 witness: a freshly extracted block (populated `columns`, no `header`
attribute) keeps its `columns` through cleaning, and is cleaned exactly like
an empty-header block. -/
theorem claim_C10_columns_frame_witness :
    ((clean_table_blocks [freshBlock]).map TableBlock.columns =
      [["Date".toList, "Debit".toList]]) ∧
    cleanTableOne freshBlock = cleanTableOne { freshBlock with header := some [] } :=
  ⟨(claim_C10_columns_frame).1 [freshBlock],
   (claim_C10_columns_frame).2 freshBlock rfl⟩

lemma filterMap_some_of_mem {α β : Type} (f : α → Option β) (g : α → β) :
    ∀ l : List α, (∀ a ∈ l, f a = some (g a)) → l.filterMap f = l.map g := by
  intro l
  induction l with
  | nil => intro _; rfl
  | cons x xs ih =>
    intro h
    rw [List.filterMap_cons, h x (by simp), List.map_cons,
      ih (fun a ha => h a (List.mem_cons_of_mem _ ha))]

lemma getattrStr_image_path (im : ImageBlock) :
    im.getattrStr "image_path".toList = none := rfl

lemma getattrStr_ref (im : ImageBlock) :
    im.getattrStr "ref".toList = none := rfl

/-- A document whose single image has its schema `file_path` field
populated. -/
def imageDoc : IngestedDocument :=
  { metadata :=
      { doc_id := "doc_001".toList
        file_name := "statement.pdf".toList
        doc_type := "bank_statement".toList
        page_count := 1
        ingested_at := "2025-12-01T10:00:00".toList
        source := "uploaded".toList }
    texts :=
      [{ id := "txt_001".toList
         doc_id := "doc_001".toList
         page := 1
         content := "hello".toList }]
    tables := []
    images :=
      [{ id := "img_001".toList
         doc_id := "doc_001".toList
         page := 1
         file_path := "images/doc_001/img_001.png".toList }] }

/-- C5: `validate_images` tests the attributes `image_path` and `ref`, which
the schema's `ImageBlock` never declares (it declares `file_path`), so the
`IMAGE_NO_PATH` warning is emitted for every image — in particular for an
image whose `file_path` is populated, contradicting the claim that such an
image receives no warning. -/
theorem claim_C5_image_warning_unconditional :
    (∀ doc : IngestedDocument,
      (validate_images doc).length = doc.images.length ∧
      ∀ i ∈ validate_images doc,
        i.level = "warning".toList ∧ i.code = "IMAGE_NO_PATH".toList) ∧
    ((validate_all imageDoc).countP
        (fun i => i.code == "IMAGE_NO_PATH".toList) = 1 ∧
      imageDoc.images.map ImageBlock.file_path =
        ["images/doc_001/img_001.png".toList]) := by
  constructor
  · intro doc
    have heq : validate_images doc = doc.images.enum.map (fun iz =>
        ⟨"warning".toList, "IMAGE_NO_PATH".toList,
          "Image index=".toList ++ natStr iz.1 ++
            " has no image_path/ref.".toList,
          [("image_index".toList, PVal.n iz.1)]⟩) := by
      unfold validate_images
      apply filterMap_some_of_mem
      intro iz _
      rw [getattrStr_image_path, getattrStr_ref]
      rfl
    rw [heq]
    constructor
    · rw [List.length_map, List.enum_length]
    · intro i hi
      rcases List.mem_map.mp hi with ⟨iz, _, rfl⟩
      exact ⟨rfl, rfl⟩
  · constructor
    · decide
    · decide

/-- C4: cleaning a table with a non-empty header and at least one row yields
uniform lengths (every surviving row as long as the surviving header), no
column that is blank in the header and every surviving row, no surviving row
that is entirely blank, and exactly the rows whose cleaned cells are not all
blank survive. -/
theorem claim_C4_padding_pruning (tbs : List TableBlock) (tb : TableBlock)
    (hmem : tb ∈ tbs) (hh : tb.header.getD [] ≠ []) (hr : tb.rows ≠ []) :
    cleanTableOne tb ∈ clean_table_blocks tbs ∧
    (∀ r ∈ (cleanTableOne tb).rows,
      r.length = ((cleanTableOne tb).header.getD []).length) ∧
    (∀ j, j < ((cleanTableOne tb).header.getD []).length →
      colKept ((cleanTableOne tb).header.getD []) (cleanTableOne tb).rows j
        = true) ∧
    (∀ r ∈ (cleanTableOne tb).rows, rowNonBlank r = true) ∧
    ((cleanTableOne tb).rows.length =
      tb.rows.countP (fun r => rowNonBlank (r.map normalizeText))) := by
  have h1 : (cleanTableOne tb).header.getD [] =
      (cleanTableCore (tb.header.getD []) tb.rows).1 := rfl
  have h2 : (cleanTableOne tb).rows =
      (cleanTableCore (tb.header.getD []) tb.rows).2 := rfl
  refine ⟨List.mem_map_of_mem _ hmem, ?_, ?_, ?_, ?_⟩
  · rw [h1, h2]
    exact cleanTableCore_uniform _ _ hh hr
  · rw [h1, h2]
    exact cleanTableCore_colKept _ _ hh hr
  · rw [h2]
    exact cleanTableCore_rows_nonblank _ _
  · rw [h2]
    exact cleanTableCore_count _ _ hh hr

/-- The spec's padding example: header of length 3, one row of length 5. -/
def padBlock : TableBlock :=
  { id := "tbl_0001".toList
    doc_id := "doc_001".toList
    page := 1
    rows := [["1".toList, "2".toList, "3".toList, "4".toList, "5".toList]]
    header := some ["a".toList, "b".toList, "c".toList] }

/-- C4 witness: on the header-3/row-5 table, every surviving row has the
surviving header's length. -/
theorem claim_C4_padding_pruning_witness :
    ((cleanTableOne padBlock).rows.all
      (fun r => r.length == ((cleanTableOne padBlock).header.getD []).length))
      = true := by
  apply List.all_eq_true.mpr
  intro r hr
  exact beq_iff_eq.mpr
    ((claim_C4_padding_pruning [padBlock] padBlock (by simp) (by decide)
      (by decide)).2.1 r hr)

/-- C7: cleaning is idempotent — a second `clean_text_blocks` pass changes no
block's content and drops no block, and a second `clean_table_blocks` pass
changes no header and no row (in particular it drops no further row or
column). -/
theorem claim_C7_cleaning_idempotent :
    (∀ blocks : List TextBlock,
      (clean_text_blocks (clean_text_blocks blocks)).map TextBlock.content =
        (clean_text_blocks blocks).map TextBlock.content) ∧
    (∀ tables : List TableBlock,
      (clean_table_blocks (clean_table_blocks tables)).map TableBlock.header =
        (clean_table_blocks tables).map TableBlock.header ∧
      (clean_table_blocks (clean_table_blocks tables)).map TableBlock.rows =
        (clean_table_blocks tables).map TableBlock.rows) := by
  constructor
  · intro blocks
    have hout : ∀ b ∈ clean_text_blocks blocks, cleanTextOne b =
        some { b with extra := textCleaningExtra b.extra b.content b.content } := by
      intro b hb
      rcases List.mem_filterMap.mp hb with ⟨a, _, ha⟩
      unfold cleanTextOne at ha
      by_cases hn : (normalizeText a.content).isEmpty
      · rw [if_pos hn] at ha
        cases ha
      · rw [if_neg hn] at ha
        have hcont : b.content = normalizeText a.content := by
          rw [← Option.some_inj.mp ha]
        have hfix : normalizeText b.content = b.content := by
          rw [hcont]
          exact normalizeText_idem a.content
        simp only [cleanTextOne]
        rw [hfix, if_neg (by rw [hcont]; exact hn)]
    conv_lhs => rw [show clean_text_blocks (clean_text_blocks blocks) =
      (clean_text_blocks blocks).filterMap cleanTextOne from rfl]
    rw [filterMap_some_of_mem cleanTextOne
      (fun b => { b with extra := textCleaningExtra b.extra b.content b.content })
      (clean_text_blocks blocks) hout]
    rw [List.map_map]
    exact List.map_congr_left (fun b _ => rfl)
  · intro tables
    have hone : ∀ tb : TableBlock,
        (cleanTableOne (cleanTableOne tb)).header = (cleanTableOne tb).header ∧
        (cleanTableOne (cleanTableOne tb)).rows = (cleanTableOne tb).rows := by
      intro tb
      have hcore := cleanTableCore_idem (tb.header.getD []) tb.rows
      constructor
      · show some (cleanTableCore ((cleanTableOne tb).header.getD [])
            (cleanTableOne tb).rows).1 = (cleanTableOne tb).header
        rw [show (cleanTableOne tb).header.getD [] =
            (cleanTableCore (tb.header.getD []) tb.rows).1 from rfl,
          show (cleanTableOne tb).rows =
            (cleanTableCore (tb.header.getD []) tb.rows).2 from rfl, hcore]
        rfl
      · show (cleanTableCore ((cleanTableOne tb).header.getD [])
            (cleanTableOne tb).rows).2 = (cleanTableOne tb).rows
        rw [show (cleanTableOne tb).header.getD [] =
            (cleanTableCore (tb.header.getD []) tb.rows).1 from rfl,
          show (cleanTableOne tb).rows =
            (cleanTableCore (tb.header.getD []) tb.rows).2 from rfl, hcore]
    constructor
    · unfold clean_table_blocks
      simp only [List.map_map]
      apply List.map_congr_left
      intro tb _
      exact (hone tb).1
    · unfold clean_table_blocks
      simp only [List.map_map]
      apply List.map_congr_left
      intro tb _
      exact (hone tb).2

/-- A table block carrying the spec's example header. -/
def dateHeaderBlock : TableBlock :=
  { id := "tbl_0001".toList
    doc_id := "doc_001".toList
    page := 1
    header := some ["Date".toList, "Description".toList, "Debit".toList,
      "Balance".toList] }

/-- C6: header normalization maps the example header
`["Date","Description","Debit","Balance"]` to
`["date","description","amount_out","balance"]`, leaves a header matching no
synonym-table key as its stripped lowercased form, and is case-insensitive
(lowercasing the input first changes nothing). -/
theorem claim_C6_header_normalization :
    ((normalize_tables [dateHeaderBlock]).map TableBlock.header =
      [some ["date".toList, "description".toList, "amount_out".toList,
        "balance".toList]]) ∧
    (∀ h : Str,
      (∀ kv ∈ HEADER_NORMALIZATION_MAP,
        hasSub kv.1 (pyLower (pyStrip h)) = false) →
      normalize_header_name h = pyLower (pyStrip h)) ∧
    (∀ h : Str, normalize_header_name (pyLower h) = normalize_header_name h) := by
  refine ⟨by decide, ?_, ?_⟩
  · intro h hnone
    simp only [normalize_header_name]
    by_cases hemp : (pyLower (pyStrip h)).isEmpty
    · rw [if_pos hemp]
      exact (List.isEmpty_iff.mp hemp).symm
    · rw [if_neg hemp]
      rw [List.find?_eq_none.mpr (fun kv hkv => by simp [hnone kv hkv])]
  · intro h
    have hc : pyLower (pyStrip (pyLower h)) = pyLower (pyStrip h) := by
      rw [pyStrip_pyLower, pyLower_idem]
    simp only [normalize_header_name]
    rw [hc]

/-- C6 witness: a header matching no synonym key passes through stripped and
lowercased. -/
theorem claim_C6_header_normalization_witness :
    normalize_header_name " Remarks ".toList =
      pyLower (pyStrip " Remarks ".toList) :=
  (claim_C6_header_normalization).2.1 " Remarks ".toList (by decide)

lemma rule_based_mem (doc : IngestedDocument) :
    classify_document_rule_based doc ∈ CANDIDATE_TYPES := by
  simp only [classify_document_rule_based]
  repeat' split
  all_goals decide

/-- C1, amended: when the model path fails before a response text is
retrieved — no/empty `GOOGLE_API_KEY`, failed model selection (the
`list_models` call raised or no candidate model is available), a raising
`generate_content`, or a raising `resp.text` accessor —
`classify_document_with_gemini` returns exactly
`classify_document_rule_based doc`; in every case both classifiers return a
label in `CANDIDATE_TYPES` and (being total functions of the modelled
outcomes) never raise.  (On a successfully retrieved but empty or
unparseable response text the source returns `"generic"`, not the rule-based
result — see the counterexample.) -/
theorem claim_C1_gemini_fallback (env : GeminiEnv) (doc : IngestedDocument)
    (model_name : Option Str) :
    classify_document_rule_based doc ∈ CANDIDATE_TYPES ∧
    classify_document_with_gemini env doc model_name ∈ CANDIDATE_TYPES ∧
    ((env.api_key = none ∨ env.api_key = some [] ∨
      geminiChooseModel env model_name = none ∨
      env.response = none ∨ env.response = some none) →
      classify_document_with_gemini env doc model_name =
        classify_document_rule_based doc) := by
  refine ⟨rule_based_mem doc, ?_, ?_⟩
  · unfold classify_document_with_gemini
    cases hk : env.api_key with
    | none => exact rule_based_mem doc
    | some key =>
      dsimp only
      by_cases hke : key.isEmpty
      · rw [if_pos hke]
        exact rule_based_mem doc
      · rw [if_neg hke]
        cases hch : geminiChooseModel env model_name with
        | none => exact rule_based_mem doc
        | some m =>
          cases hresp : env.response with
          | none => exact rule_based_mem doc
          | some r =>
            cases r with
            | none => exact rule_based_mem doc
            | some txt =>
              dsimp only
              by_cases hans : CANDIDATE_TYPES.any (· == pyLower (pyStrip txt))
              · rw [if_pos hans]
                rcases List.any_eq_true.mp hans with ⟨t, htm, hteq⟩
                rw [← eq_of_beq hteq]
                exact htm
              · rw [if_neg hans]
                repeat' split
                all_goals decide
  · intro hfail
    unfold classify_document_with_gemini
    cases hk : env.api_key with
    | none => rfl
    | some key =>
      dsimp only
      by_cases hke : key.isEmpty
      · rw [if_pos hke]
      · rw [if_neg hke]
        cases hch : geminiChooseModel env model_name with
        | none => rfl
        | some m =>
          dsimp only
          rcases hfail with h | h | h | h | h
          · rw [h] at hk
            cases hk
          · rw [h] at hk
            injection hk with hkey
            rw [← hkey] at hke
            simp at hke
          · rw [h] at hch
            cases hch
          · rw [h]
          · rw [h]

/-- A document whose filename makes the rule-based classifier answer
`"invoice"`. -/
def invoiceDoc : IngestedDocument :=
  { metadata :=
      { doc_id := "doc_002".toList
        file_name := "invoice.pdf".toList
        doc_type := "generic".toList
        page_count := 1
        ingested_at := "2025-12-01T10:00:00".toList
        source := "uploaded".toList } }

/-- A Gemini environment where every external step succeeds but the model
answers with an empty text. -/
def emptyRespEnv : GeminiEnv :=
  { api_key := some "k".toList
    available_models := some ["models/gemini-2.5-flash".toList]
    response := some (some []) }

/-- C1 counterexample: on an empty (hence unparseable) model response the
model-assisted classifier returns `"generic"`, not the rule-based result
`"invoice"` — refuting the claim that every failure, including an
empty/unparseable response, falls back to the rule-based label. -/
theorem claim_C1_counterexample :
    classify_document_with_gemini emptyRespEnv invoiceDoc none =
      "generic".toList ∧
    classify_document_rule_based invoiceDoc = "invoice".toList ∧
    classify_document_with_gemini emptyRespEnv invoiceDoc none ≠
      classify_document_rule_based invoiceDoc := by
  refine ⟨by decide, by decide, by decide⟩

/-- A Gemini environment with no API key configured. -/
def noKeyEnv : GeminiEnv :=
  { api_key := none
    available_models := none
    response := none }

/-- C1 witness: with no API key the model-assisted classifier returns the
rule-based label, which is in `CANDIDATE_TYPES`. -/
theorem claim_C1_gemini_fallback_witness :
    classify_document_with_gemini noKeyEnv invoiceDoc none =
      classify_document_rule_based invoiceDoc ∧
    classify_document_rule_based invoiceDoc ∈ CANDIDATE_TYPES :=
  ⟨(claim_C1_gemini_fallback noKeyEnv invoiceDoc none).2.2 (Or.inl rfl),
   (claim_C1_gemini_fallback noKeyEnv invoiceDoc none).1⟩

/-! ## Chunk-id analysis -/

lemma hasSub_cons_false {n : Str} {b : Char} {bs : Str}
    (h : hasSub n (b :: bs) = false) :
    leadsWith n (b :: bs) = false ∧ hasSub n bs = false := by
  unfold hasSub at h
  exact Bool.or_eq_false_iff.mp h

lemma text_toList : "text".toList = ['t', 'e', 'x', 't'] := rfl

lemma table_toList : "table".toList = ['t', 'a', 'b', 'l', 'e'] := rfl

lemma image_toList : "image".toList = ['i', 'm', 'a', 'g', 'e'] := rfl

/-- Splitting at the first id separator is unambiguous when neither prefix
contains `"::"` and neither remainder starts with a colon. -/
lemma sep_split : ∀ (a c r1 r2 : Str),
    hasSub [':', ':'] a = false → hasSub [':', ':'] c = false →
    (∀ x ∈ r1.head?, x ≠ ':') → (∀ x ∈ r2.head?, x ≠ ':') →
    a ++ ':' :: ':' :: r1 = c ++ ':' :: ':' :: r2 → a = c ∧ r1 = r2 := by
  intro a
  induction a with
  | nil =>
    intro c r1 r2 _ hc h1 h2 heq
    cases c with
    | nil =>
      rw [List.nil_append, List.nil_append] at heq
      injection heq with _ heq'
      injection heq' with _ heq''
      exact ⟨rfl, heq''⟩
    | cons d c' =>
      rw [List.nil_append, List.cons_append] at heq
      injection heq with hd htail
      cases c' with
      | nil =>
        rw [List.nil_append] at htail
        injection htail with _ h2'
        exact absurd (h2' ▸ rfl : (':' : Char) ∈ r1.head?) (fun hm => h1 ':' hm rfl)
      | cons e c'' =>
        rw [List.cons_append] at htail
        injection htail with he _
        have hlw := (hasSub_cons_false hc).1
        rw [← hd, ← he] at hlw
        simp [leadsWith] at hlw
  | cons x a' ih =>
    intro c r1 r2 ha hc h1 h2 heq
    cases c with
    | nil =>
      rw [List.nil_append, List.cons_append] at heq
      injection heq with hx htail
      cases a' with
      | nil =>
        rw [List.nil_append] at htail
        injection htail with _ h1'
        exact absurd (h1'.symm ▸ rfl : (':' : Char) ∈ r2.head?)
          (fun hm => h2 ':' hm rfl)
      | cons z a'' =>
        rw [List.cons_append] at htail
        injection htail with hz _
        have hlw := (hasSub_cons_false ha).1
        rw [hx, hz] at hlw
        simp [leadsWith] at hlw
    | cons y c' =>
      rw [List.cons_append, List.cons_append] at heq
      injection heq with hxy htail
      obtain ⟨hac, hr⟩ := ih c' r1 r2 (hasSub_cons_false ha).2
        (hasSub_cons_false hc).2 h1 h2 htail
      exact ⟨by rw [hxy, hac], hr⟩

lemma kindStr_head (k : SourceKind) (b : Str) :
    ∀ x ∈ (k.str ++ ':' :: ':' :: b).head?, x ≠ ':' := by
  cases k <;>
    · intro x hx
      simp only [SourceKind.str, text_toList, table_toList, image_toList,
        List.cons_append, List.head?_cons, Option.mem_def,
        Option.some.injEq] at hx
      subst hx
      decide

lemma kindStr_cases : ∀ (k k' : SourceKind) (b b' : Str),
    k.str ++ ':' :: ':' :: b = k'.str ++ ':' :: ':' :: b' →
    k = k' ∧ b = b' := by
  intro k k' b b' h
  cases k <;> cases k' <;>
    simp only [SourceKind.str, text_toList, table_toList, image_toList,
      List.cons_append, List.nil_append, List.cons.injEq] at h
  all_goals
    first
    | exact ⟨rfl, by tauto⟩
    | (exfalso
       rcases h with ⟨h1, h⟩
       first
       | exact absurd h1 (by decide)
       | (rcases h with ⟨h2, h⟩
          exact absurd h2 (by decide)))

/-- Chunk-id formatting is injective as long as document ids contain no
`"::"`. -/
lemma chunkId_inj {a c b b' : Str} {k k' : SourceKind}
    (ha : hasSub "::".toList a = false) (hc : hasSub "::".toList c = false)
    (h : chunkId a k b = chunkId c k' b') : a = c ∧ k = k' ∧ b = b' := by
  have hsep : "::".toList = [':', ':'] := rfl
  rw [hsep] at ha hc
  unfold chunkId sep2 at h
  simp only [List.append_assoc, List.cons_append, List.nil_append] at h
  obtain ⟨hac, hrest⟩ := sep_split a c _ _ ha hc (kindStr_head k b)
    (kindStr_head k' b') h
  obtain ⟨hkk, hbb⟩ := kindStr_cases k k' b b' hrest
  exact ⟨hac, hkk, hbb⟩

lemma text_chunk_ids (bundle : DocumentBundle) :
    (text_items_to_chunks bundle).map Chunk.id =
      (bundle.texts.filter (fun t => !t.content.isEmpty)).map
        (fun t => chunkId t.doc_id .text t.id) := by
  unfold text_items_to_chunks
  induction bundle.texts with
  | nil => rfl
  | cons t ts ih =>
    rw [List.filterMap_cons, List.filter_cons]
    by_cases hc : t.content.isEmpty
    · rw [if_pos hc]
      dsimp only
      rw [show (!t.content.isEmpty) = false from by rw [hc]; rfl,
        if_neg Bool.false_ne_true]
      exact ih
    · have hc' : t.content.isEmpty = false := by
        revert hc
        cases t.content.isEmpty <;> simp
      rw [if_neg hc]
      dsimp only
      rw [show (!t.content.isEmpty) = true from by rw [hc']; rfl, if_pos rfl]
      rw [List.map_cons, List.map_cons, ih]

lemma table_chunk_ids (bundle : DocumentBundle) :
    (table_items_to_chunks bundle).map Chunk.id =
      bundle.tables.map (fun t => chunkId t.doc_id .table t.id) := by
  unfold table_items_to_chunks
  rw [List.map_map]
  rfl

lemma image_chunk_ids (bundle : DocumentBundle) :
    (image_items_to_chunks bundle).map Chunk.id =
      (bundle.images.filter (fun im => truthyOptStr im.caption)).map
        (fun im => chunkId im.doc_id .image im.id) := by
  unfold image_items_to_chunks
  induction bundle.images with
  | nil => rfl
  | cons im ims ih =>
    rw [List.filterMap_cons, List.filter_cons]
    cases hcap : im.caption with
    | none =>
      dsimp only [truthyOptStr]
      rw [if_neg Bool.false_ne_true]
      exact ih
    | some cap =>
      dsimp only [truthyOptStr]
      by_cases hc : cap.isEmpty
      · rw [if_pos hc, show (!cap.isEmpty) = false from by rw [hc]; rfl,
          if_neg Bool.false_ne_true]
        dsimp only
        exact ih
      · have hc' : cap.isEmpty = false := by
          revert hc
          cases cap.isEmpty <;> simp
        rw [if_neg hc, show (!cap.isEmpty) = true from by rw [hc']; rfl,
          if_pos rfl]
        dsimp only
        rw [List.map_cons, List.map_cons, ih]
        rfl

/-- Every chunk of a bundle carries the id `{doc_id}::{kind}::{block id}`
built from its own `doc_id` and `source`. -/
lemma bundle_chunk_shape (b : DocumentBundle) :
    ∀ c ∈ bundle_chunks b, ∃ bid, c.id = chunkId c.doc_id c.source bid := by
  intro c hcm
  unfold bundle_chunks at hcm
  rcases List.mem_append.mp hcm with hcm | hcm
  rcases List.mem_append.mp hcm with hcm | hcm
  · rcases List.mem_filterMap.mp hcm with ⟨t, _, hf⟩
    revert hf
    split
    · intro hf
      cases hf
    · intro hf
      injection hf with hf
      exact ⟨t.id, by rw [← hf]⟩
  · rcases List.mem_map.mp hcm with ⟨t, _, rfl⟩
    exact ⟨t.id, rfl⟩
  · rcases List.mem_filterMap.mp hcm with ⟨im, _, hf⟩
    revert hf
    split
    · intro hf
      cases hf
    · split
      · intro hf
        cases hf
      · intro hf
        injection hf with hf
        exact ⟨im.id, by rw [← hf]⟩

/-- When a bundle's items all carry the bundle's `doc_id`, so do its
chunks. -/
lemma bundle_chunk_docid (b : DocumentBundle)
    (h1 : ∀ t ∈ b.texts, t.doc_id = b.metadata.doc_id)
    (h2 : ∀ t ∈ b.tables, t.doc_id = b.metadata.doc_id)
    (h3 : ∀ t ∈ b.images, t.doc_id = b.metadata.doc_id) :
    ∀ c ∈ bundle_chunks b, c.doc_id = b.metadata.doc_id := by
  intro c hcm
  unfold bundle_chunks at hcm
  rcases List.mem_append.mp hcm with hcm | hcm
  rcases List.mem_append.mp hcm with hcm | hcm
  · rcases List.mem_filterMap.mp hcm with ⟨t, htm, hf⟩
    revert hf
    split
    · intro hf
      cases hf
    · intro hf
      injection hf with hf
      rw [← hf]
      exact h1 t htm
  · rcases List.mem_map.mp hcm with ⟨t, htm, rfl⟩
    exact h2 t htm
  · rcases List.mem_filterMap.mp hcm with ⟨im, htm, hf⟩
    revert hf
    split
    · intro hf
      cases hf
    · split
      · intro hf
        cases hf
      · intro hf
        injection hf with hf
        rw [← hf]
        exact h3 im htm

/-- Every chunk id of a well-attributed bundle has the shape
`{bundle doc id}::{kind}::{block id}`. -/
lemma bundle_chunk_ids_shape (b : DocumentBundle)
    (h1 : ∀ t ∈ b.texts, t.doc_id = b.metadata.doc_id)
    (h2 : ∀ t ∈ b.tables, t.doc_id = b.metadata.doc_id)
    (h3 : ∀ t ∈ b.images, t.doc_id = b.metadata.doc_id) :
    ∀ x ∈ (bundle_chunks b).map Chunk.id,
      ∃ k bid, x = chunkId b.metadata.doc_id k bid := by
  intro x hx
  rcases List.mem_map.mp hx with ⟨c, hc, rfl⟩
  rcases bundle_chunk_shape b c hc with ⟨bid, hid⟩
  exact ⟨c.source, bid, by rw [hid, bundle_chunk_docid b h1 h2 h3 c hc]⟩

/-- In one well-attributed bundle with per-kind unique block ids and a
separator-free document id, all chunk ids are pairwise distinct. -/
lemma bundle_ids_nodup (b : DocumentBundle)
    (h1 : ∀ t ∈ b.texts, t.doc_id = b.metadata.doc_id)
    (h2 : ∀ t ∈ b.tables, t.doc_id = b.metadata.doc_id)
    (h3 : ∀ t ∈ b.images, t.doc_id = b.metadata.doc_id)
    (hn1 : (b.texts.map TextItem.id).Nodup)
    (hn2 : (b.tables.map TableItem.id).Nodup)
    (hn3 : (b.images.map ImageItem.id).Nodup)
    (hsep : hasSub "::".toList b.metadata.doc_id = false) :
    ((bundle_chunks b).map Chunk.id).Nodup := by
  have htext : (text_items_to_chunks b).map Chunk.id =
      ((b.texts.filter (fun t => !t.content.isEmpty)).map TextItem.id).map
        (fun bid => chunkId b.metadata.doc_id .text bid) := by
    rw [text_chunk_ids, List.map_map]
    apply List.map_congr_left
    intro t ht
    show chunkId t.doc_id .text t.id = chunkId b.metadata.doc_id .text t.id
    rw [h1 t (List.mem_of_mem_filter ht)]
  have htable : (table_items_to_chunks b).map Chunk.id =
      (b.tables.map TableItem.id).map
        (fun bid => chunkId b.metadata.doc_id .table bid) := by
    rw [table_chunk_ids, List.map_map]
    apply List.map_congr_left
    intro t ht
    show chunkId t.doc_id .table t.id = chunkId b.metadata.doc_id .table t.id
    rw [h2 t ht]
  have himage : (image_items_to_chunks b).map Chunk.id =
      ((b.images.filter (fun im => truthyOptStr im.caption)).map
        ImageItem.id).map
        (fun bid => chunkId b.metadata.doc_id .image bid) := by
    rw [image_chunk_ids, List.map_map]
    apply List.map_congr_left
    intro im hm
    show chunkId im.doc_id .image im.id = chunkId b.metadata.doc_id .image im.id
    rw [h3 im (List.mem_of_mem_filter hm)]
  have hinj : ∀ k : SourceKind,
      Function.Injective (fun bid => chunkId b.metadata.doc_id k bid) := by
    intro k x y hxy
    exact (chunkId_inj hsep hsep hxy).2.2
  have hnd1 : ((text_items_to_chunks b).map Chunk.id).Nodup := by
    rw [htext]
    exact List.Nodup.map (hinj .text)
      (List.Nodup.sublist (List.Sublist.map _ (List.filter_sublist _)) hn1)
  have hnd2 : ((table_items_to_chunks b).map Chunk.id).Nodup := by
    rw [htable]
    exact List.Nodup.map (hinj .table) hn2
  have hnd3 : ((image_items_to_chunks b).map Chunk.id).Nodup := by
    rw [himage]
    exact List.Nodup.map (hinj .image)
      (List.Nodup.sublist (List.Sublist.map _ (List.filter_sublist _)) hn3)
  have hmem : ∀ (k : SourceKind) (base : List Str) (x : Str),
      x ∈ base.map (fun bid => chunkId b.metadata.doc_id k bid) →
      ∃ bid, x = chunkId b.metadata.doc_id k bid := by
    intro k base x hx
    rcases List.mem_map.mp hx with ⟨bid, _, rfl⟩
    exact ⟨bid, rfl⟩
  unfold bundle_chunks
  rw [List.map_append, List.map_append]
  refine List.nodup_append.mpr ⟨List.nodup_append.mpr ⟨hnd1, hnd2, ?_⟩, hnd3, ?_⟩
  · intro x hx1 hx2
    rw [htext] at hx1
    rw [htable] at hx2
    rcases hmem _ _ _ hx1 with ⟨b1, rfl⟩
    rcases hmem _ _ _ hx2 with ⟨b2, heq⟩
    cases (chunkId_inj hsep hsep heq).2.1
  · intro x hx hx3
    rw [himage] at hx3
    rcases hmem _ _ _ hx3 with ⟨b3, heq3⟩
    rcases List.mem_append.mp hx with hx | hx
    · rw [htext] at hx
      rcases hmem _ _ _ hx with ⟨b1, rfl⟩
      cases (chunkId_inj hsep hsep heq3).2.1
    · rw [htable] at hx
      rcases hmem _ _ _ hx with ⟨b2, rfl⟩
      cases (chunkId_inj hsep hsep heq3).2.1

/-- C9, amended: every chunk id is `{doc_id}::{source kind}::{block id}`;
and over any corpus of bundles with pairwise-distinct document ids that
contain no `"::"`, consistently attributed items, and per-document-unique
block ids, all chunk ids are pairwise distinct.  (Without the no-`"::"`
proviso the uniqueness consequence is false — see the counterexample.) -/
theorem claim_C9_chunk_ids (corpus : List DocumentBundle)
    (hids : (corpus.map (fun b => b.metadata.doc_id)).Nodup)
    (hdoc : ∀ b ∈ corpus,
      (∀ t ∈ b.texts, t.doc_id = b.metadata.doc_id) ∧
      (∀ t ∈ b.tables, t.doc_id = b.metadata.doc_id) ∧
      (∀ t ∈ b.images, t.doc_id = b.metadata.doc_id))
    (hblocks : ∀ b ∈ corpus,
      (b.texts.map TextItem.id).Nodup ∧ (b.tables.map TableItem.id).Nodup ∧
      (b.images.map ImageItem.id).Nodup)
    (hsep : ∀ b ∈ corpus, hasSub "::".toList b.metadata.doc_id = false) :
    (∀ b ∈ corpus, ∀ c ∈ bundle_chunks b,
      ∃ bid, c.id =
        c.doc_id ++ "::".toList ++ c.source.str ++ "::".toList ++ bid) ∧
    ((corpus_chunks corpus).map Chunk.id).Nodup := by
  constructor
  · intro b _ c hc
    rcases bundle_chunk_shape b c hc with ⟨bid, hid⟩
    exact ⟨bid, by rw [hid]; rfl⟩
  · unfold corpus_chunks
    rw [List.map_flatten, List.map_map]
    rw [List.nodup_flatten]
    constructor
    · intro l hl
      rcases List.mem_map.mp hl with ⟨b, hb, rfl⟩
      exact bundle_ids_nodup b (hdoc b hb).1 (hdoc b hb).2.1 (hdoc b hb).2.2
        (hblocks b hb).1 (hblocks b hb).2.1 (hblocks b hb).2.2 (hsep b hb)
    · rw [List.pairwise_map]
      have hne : corpus.Pairwise
          (fun b b' => b.metadata.doc_id ≠ b'.metadata.doc_id) := by
        have h := hids
        unfold List.Nodup at h
        rw [List.pairwise_map] at h
        exact h
      refine List.Pairwise.imp_of_mem (fun {b1 b2} hb hb' hbne => ?_) hne
      intro x hx hx'
      rcases bundle_chunk_ids_shape b1 (hdoc b1 hb).1 (hdoc b1 hb).2.1
        (hdoc b1 hb).2.2 x hx with ⟨k, bid, rfl⟩
      rcases bundle_chunk_ids_shape b2 (hdoc b2 hb').1 (hdoc b2 hb').2.1
        (hdoc b2 hb').2.2 _ hx' with ⟨k', bid', heq⟩
      exact hbne (chunkId_inj (hsep b1 hb) (hsep b2 hb') heq).1

/-- A bundle whose document id itself contains the separator `"::"`. -/
def clashBundleA : DocumentBundle :=
  { metadata :=
      { doc_id := "d::text".toList
        file_name := "a.json".toList
        page_count := 1 }
    texts :=
      [{ id := "b".toList
         doc_id := "d::text".toList
         page := 1
         content := "x".toList
         doc_type := "generic".toList }] }

/-- A second bundle with a distinct document id and a block id that recreates
the same chunk id. -/
def clashBundleB : DocumentBundle :=
  { metadata :=
      { doc_id := "d".toList
        file_name := "b.json".toList
        page_count := 1 }
    texts :=
      [{ id := "text::b".toList
         doc_id := "d".toList
         page := 1
         content := "y".toList
         doc_type := "generic".toList }] }

/-- C9 counterexample: two documents with pairwise-distinct doc ids and
per-document-unique block ids whose chunk ids nevertheless collide, because
the claim's id scheme is not injective when ids may contain `"::"`. -/
theorem claim_C9_counterexample :
    (([clashBundleA, clashBundleB].map (fun b => b.metadata.doc_id)).Nodup) ∧
    (∀ b ∈ [clashBundleA, clashBundleB],
      (b.texts.map TextItem.id).Nodup ∧ (b.tables.map TableItem.id).Nodup ∧
      (b.images.map ImageItem.id).Nodup) ∧
    (∀ b ∈ [clashBundleA, clashBundleB],
      ∀ t ∈ b.texts, t.doc_id = b.metadata.doc_id) ∧
    ¬ ((corpus_chunks [clashBundleA, clashBundleB]).map Chunk.id).Nodup := by
  refine ⟨by decide, by decide, ?_, by decide⟩
  intro b hb t ht
  fin_cases hb <;> fin_cases ht <;> decide

/-- Two documents with ordinary ids sharing the block id `b`. -/
def wbA : DocumentBundle :=
  { metadata :=
      { doc_id := "d1".toList
        file_name := "a.json".toList
        page_count := 1 }
    texts :=
      [{ id := "b".toList
         doc_id := "d1".toList
         page := 1
         content := "x".toList
         doc_type := "generic".toList }] }

/-- See `wbA`. -/
def wbB : DocumentBundle :=
  { metadata :=
      { doc_id := "d2".toList
        file_name := "b.json".toList
        page_count := 1 }
    texts :=
      [{ id := "b".toList
         doc_id := "d2".toList
         page := 1
         content := "y".toList
         doc_type := "generic".toList }] }

/-- C9 witness: two documents reusing the same block id still get distinct
chunk ids. -/
theorem claim_C9_chunk_ids_witness :
    ((corpus_chunks [wbA, wbB]).map Chunk.id).Nodup ∧
    (corpus_chunks [wbA, wbB]).map Chunk.id =
      ["d1::text::b".toList, "d2::text::b".toList] :=
  ⟨(claim_C9_chunk_ids [wbA, wbB] (by decide)
      (by
        intro b hb
        fin_cases hb
        all_goals
          refine ⟨?_, ?_, ?_⟩
          · intro t ht
            fin_cases ht
            decide
          · intro t ht
            cases ht
          · intro t ht
            cases ht)
      (by decide) (by decide)).2,
   by decide⟩

end AIDI
